import Mathlib

/-!
# Verification of the fcitx5-rime-config synchronizer scripts

Shallow embedding of `scripts/init.py` (the linkage reconciler) and
`scripts/copy.py` (the tree projector).  Pure Python string manipulation is
embedded as functions over `List Char`; file bytes are `List Nat`; the
effectful parts (subprocess invocations, filesystem mutation) are embedded as
trace-producing functions over an explicit external world.  Filesystem
primitives (`mkdir`, `shutil` copies, file writes) are modelled as
non-failing actions; subprocess outcomes are supplied by the world, and a
`check=True` invocation that fails raises `CalledProcessError` exactly as in
the source.
-/

set_option linter.unusedVariables false

namespace RimeSync

/-! ## Python string primitives -/

/-- Whitespace characters stripped by Python's `str.strip()` (ASCII part,
which covers every string the scripts handle). -/
def isPySpace (c : Char) : Bool :=
  c = ' ' || c = '\t' || c = '\n' || c = '\r' || c = '\x0b' || c = '\x0c'

/-- `str.lstrip(chars)`: drop leading characters belonging to the set. -/
def pyLstripCharset (cs : List Char) (s : List Char) : List Char :=
  s.dropWhile (fun c => cs.contains c)

/-- `str.rstrip(chars)` analogue used via `strip()`. -/
def pyRstripWs (s : List Char) : List Char :=
  (s.reverse.dropWhile isPySpace).reverse

/-- Python `str.strip()` (no argument): strip whitespace from both ends. -/
def pyStrip (s : List Char) : List Char :=
  pyRstripWs (s.dropWhile isPySpace)

/-- Line-break characters recognised by Python `str.splitlines()`. -/
def isPyLineBreak (c : Char) : Bool :=
  c = '\n' || c = '\r' || c = '\x0b' || c = '\x0c' ||
  c = '\x1c' || c = '\x1d' || c = '\x1e' || c = '\x85' ||
  c = '\u2028' || c = '\u2029'

/-- Worker for `splitlines`: `acc` holds the current line reversed, and the
flag records that the previous character was a `\r` whose line break was
already emitted, so that an immediately following `\n` is swallowed
(`\r\n` counts as a single break). -/
def splitlinesGo : Bool → List Char → List Char → List (List Char)
  | _, [], acc => if acc.isEmpty then [] else [acc.reverse]
  | afterCR, c :: rest, acc =>
      if afterCR ∧ c = '\n' then splitlinesGo false rest acc
      else if c = '\r' then acc.reverse :: splitlinesGo true rest []
      else if isPyLineBreak c then acc.reverse :: splitlinesGo false rest []
      else splitlinesGo false rest (c :: acc)

/-- Python `str.splitlines()`. -/
def pySplitlines (s : List Char) : List (List Char) :=
  splitlinesGo false s []

/-! ## `.gitignore` maintenance (`init.py`, lines 131-148) -/

/-- `_normalize_gitignore_entry`: strip whitespace, then remove a leading
`./` (and any further leading slashes). -/
def _normalize_gitignore_entry (entry : List Char) : List Char :=
  let s := pyStrip entry
  if ['.', '/'].isPrefixOf s then pyLstripCharset ['/'] (s.drop 2) else s

/-- `ensure_gitignore_entry`: append the normalized entry to the ignore file
unless some existing line normalizes to the same string.  The file argument
is `none` when the ignore file does not exist; the result is the file's
content afterwards. -/
def ensure_gitignore_entry (entry : List Char) (gitignore : Option (List Char)) :
    List Char :=
  let normalized := _normalize_gitignore_entry entry
  match gitignore with
  | none => normalized ++ ['\n']
  | some text =>
      if (pySplitlines text).any
          (fun line => _normalize_gitignore_entry line == normalized) then
        text
      else
        text ++ '\n' :: (normalized ++ ['\n'])

/-! ## Python `str.replace` and the UTF-8 codec -/

/-- Python `str.replace(pat, rep)`: replace non-overlapping occurrences left
to right.  The scripts never call it with an empty pattern, for which this
model returns the string unchanged. -/
def replaceL (pat rep : List Char) (s : List Char) : List Char :=
  match pat, s with
  | [], _ => s
  | _ :: _, [] => []
  | p :: ps, c :: rest =>
      if (p :: ps).isPrefixOf (c :: rest) then
        rep ++ replaceL (p :: ps) rep (rest.drop ps.length)
      else
        c :: replaceL (p :: ps) rep rest
termination_by s.length
decreasing_by
  · simp only [List.length_drop, List.length_cons]; omega
  · simp only [List.length_cons]; omega

/-- Strict UTF-8 decoding as performed by `bytes.decode("utf-8")`: rejects
stray continuation bytes, overlong forms, surrogates and values above
U+10FFFF.  Returns `none` exactly when Python raises `UnicodeDecodeError`. -/
def utf8Decode : List Nat → Option (List Char)
  | [] => some []
  | b :: rest =>
      if b < 0x80 then
        (utf8Decode rest).map (fun cs => Char.ofNat b :: cs)
      else if 0xC2 ≤ b && b ≤ 0xDF then
        match rest with
        | b2 :: rest2 =>
            if 0x80 ≤ b2 && b2 ≤ 0xBF then
              (utf8Decode rest2).map
                (fun cs => Char.ofNat ((b - 0xC0) * 0x40 + (b2 - 0x80)) :: cs)
            else none
        | [] => none
      else if 0xE0 ≤ b && b ≤ 0xEF then
        match rest with
        | b2 :: b3 :: rest3 =>
            let lo2 := if b = 0xE0 then 0xA0 else 0x80
            let hi2 := if b = 0xED then 0x9F else 0xBF
            if lo2 ≤ b2 && b2 ≤ hi2 && 0x80 ≤ b3 && b3 ≤ 0xBF then
              (utf8Decode rest3).map
                (fun cs =>
                  Char.ofNat ((b - 0xE0) * 0x1000 + (b2 - 0x80) * 0x40 + (b3 - 0x80)) :: cs)
            else none
        | _ => none
      else if 0xF0 ≤ b && b ≤ 0xF4 then
        match rest with
        | b2 :: b3 :: b4 :: rest4 =>
            let lo2 := if b = 0xF0 then 0x90 else 0x80
            let hi2 := if b = 0xF4 then 0x8F else 0xBF
            if lo2 ≤ b2 && b2 ≤ hi2 && 0x80 ≤ b3 && b3 ≤ 0xBF && 0x80 ≤ b4 && b4 ≤ 0xBF then
              (utf8Decode rest4).map
                (fun cs =>
                  Char.ofNat ((b - 0xF0) * 0x40000 + (b2 - 0x80) * 0x1000 +
                    (b3 - 0x80) * 0x40 + (b4 - 0x80)) :: cs)
            else none
        | _ => none
      else none

/-- UTF-8 encoding of one scalar value. -/
def utf8EncodeChar (c : Char) : List Nat :=
  let n := c.toNat
  if n < 0x80 then [n]
  else if n < 0x800 then [0xC0 + n / 0x40, 0x80 + n % 0x40]
  else if n < 0x10000 then
    [0xE0 + n / 0x1000, 0x80 + (n / 0x40) % 0x40, 0x80 + n % 0x40]
  else
    [0xF0 + n / 0x40000, 0x80 + (n / 0x1000) % 0x40, 0x80 + (n / 0x40) % 0x40,
      0x80 + n % 0x40]

/-- UTF-8 encoding of a string (what `write_text(..., newline="")` emits). -/
def utf8Encode : List Char → List Nat
  | [] => []
  | c :: cs => utf8EncodeChar c ++ utf8Encode cs

/-! ## Line-ending conversion (`copy.py`, lines 22 and 51-69) -/

/-- `LINE_ENDINGS.get(key, None)`: the dictionary maps `LF`/`CRLF`/`CR` to
their separators and `NONE` to `None`; a missing key also yields `None`. -/
def lineEndingsGet (key : List Char) : Option (List Char) :=
  if key = "LF".toList then some ['\n']
  else if key = "CRLF".toList then some ['\r', '\n']
  else if key = "CR".toList then some ['\r']
  else none

/-- `copy_with_line_ending`, reduced to its data transformation: the bytes
written to `dst` as a function of the bytes of `src`.  `none` (Python
`line_ending is None`) and a failed UTF-8 decode both fall back to
`shutil.copy2`, i.e. a byte-identical copy. -/
def copy_with_line_ending (data : List Nat) (line_ending : Option (List Char)) :
    List Nat :=
  match line_ending with
  | none => data
  | some le =>
      match utf8Decode data with
      | none => data
      | some text =>
          let n1 := replaceL ['\r', '\n'] ['\n'] text
          let n2 := replaceL ['\r'] ['\n'] n1
          let final := if le ≠ ['\n'] then replaceL ['\n'] le n2 else n2
          utf8Encode final

/-- `\n`-only well-formedness: no `\r` at all. -/
def noCR (s : List Char) : Bool :=
  !s.contains '\r'

/-- `\r\n`-only well-formedness: every `\r` is followed by `\n` and every
`\n` is preceded by `\r`. -/
def crlfOk : List Char → Bool
  | [] => true
  | c :: rest =>
      if c = '\r' then
        match rest with
        | '\n' :: rest2 => crlfOk rest2
        | _ => false
      else if c = '\n' then false
      else crlfOk rest

/-! ## More Python primitives: `or` defaults, case mapping, paths, `fnmatch` -/

/-- Strings in this development are Python strings. -/
abbrev Str := List Char

/-- The `cfg.get(key) or default` idiom: `None` and the empty string both
fall back to the default. -/
def pyOr (v : Option Str) (dflt : Str) : Str :=
  match v with
  | none => dflt
  | some s => if s.isEmpty then dflt else s

/-- `str.lower()` (ASCII, which covers the `type` values compared). -/
def pyLower (s : Str) : Str :=
  s.map Char.toLower

/-- `str.upper()` (ASCII, which covers the `line-splitter` keys). -/
def pyUpper (s : Str) : Str :=
  s.map Char.toUpper

/-- Two-argument `os.path.join` on POSIX: an absolute second component
replaces the first. -/
def pyJoin (a b : Str) : Str :=
  if b.head? = some '/' then b
  else if a.isEmpty || a.getLast? = some '/' then a ++ b
  else a ++ '/' :: b

/-- The components of a POSIX path as `pathlib` normalizes them: split on
`/`, dropping empty components and `.`. -/
def segsOf (s : Str) : List Str :=
  (s.splitOn '/').filter (fun seg => !seg.isEmpty && seg ≠ ['.'])

/-- `PurePosixPath(s).name`: the final path component. -/
def posixName (s : Str) : Str :=
  ((segsOf s).getLast?).getD []

/-- Locate the closing `]` of a bracket expression: content and remainder. -/
def findClosingBracket : Str → Option (Str × Str)
  | [] => none
  | c :: rest =>
      if c = ']' then some ([], rest)
      else (findClosingBracket rest).map (fun pr => (c :: pr.1, pr.2))

/-- Parse what follows a `[` in an `fnmatch` pattern: an optional `!`
(negation), an optional leading `]` taken literally, then the content up to
the closing `]`.  `none` when there is no closing bracket, in which case
CPython's `fnmatch.translate` treats the `[` as a literal character. -/
def parseBracket (s : Str) : Option (Bool × Str × Str) :=
  let pr := match s with
    | '!' :: r => (true, r)
    | _ => (false, s)
  match h : pr.2 with
  | ']' :: r2 => (findClosingBracket r2).map (fun q => (pr.1, ']' :: q.1, q.2))
  | _ => (findClosingBracket pr.2).map (fun q => (pr.1, q.1, q.2))

/-- Bracket-class membership: `lo-hi` ranges, all other characters literal
(a `-` in first or last position is literal, as in `fnmatch.translate`). -/
def classMatch : Str → Char → Bool
  | [], _ => false
  | lo :: '-' :: hi :: rest, c => (lo ≤ c && c ≤ hi) || classMatch rest c
  | x :: rest, c => (x = c) || classMatch rest c

/-- Fueled glob matcher: `*` matches any sequence (including `/`, as
`fnmatch` is not pathname-aware), `?` any single character, brackets as
parsed above, everything else literally.  Every recursive call consumes at
least one pattern or subject character, so any fuel above
`pat.length + s.length` is exact. -/
def globMatchF : Nat → Str → Str → Bool
  | 0, _, _ => false
  | fuel + 1, pat, s =>
      match pat, s with
      | [], [] => true
      | [], _ :: _ => false
      | '*' :: ps, s =>
          globMatchF fuel ps s ||
            (match s with
             | [] => false
             | _ :: s2 => globMatchF fuel ('*' :: ps) s2)
      | '?' :: ps, s =>
          (match s with
           | [] => false
           | _ :: s2 => globMatchF fuel ps s2)
      | '[' :: ps, s =>
          (match parseBracket ps with
           | some (neg, content, rest) =>
               (match s with
                | [] => false
                | c :: s2 => (neg != classMatch content c) && globMatchF fuel rest s2)
           | none =>
               (match s with
                | [] => false
                | c :: s2 => (c = '[') && globMatchF fuel ps s2))
      | p :: ps, s =>
          (match s with
           | [] => false
           | c :: s2 => (c = p) && globMatchF fuel ps s2)

/-- `fnmatch.fnmatch(name, pat)` on POSIX, where `normcase` is the
identity. -/
def fnmatch (name pat : Str) : Bool :=
  globMatchF (pat.length + name.length + 1) pat name

/-- `should_ignore` (copy.py 42-48): a name is ignored when some pattern
matches it directly or with a wildcard directory segment prefixed
(`os.path.join("*", pat)`). -/
def should_ignore (name : Str) (ignore_patterns : List Str) : Bool :=
  ignore_patterns.any (fun pat =>
    fnmatch name pat || fnmatch name (pyJoin ['*'] pat))

/-! ## Configuration model (`init.yaml`) -/

/-- Python exceptions this embedding distinguishes. -/
inductive PyExc where
  | keyError
  | calledProcessError
  | osError
  | nameError
  deriving DecidableEq

/-- Diagnostic messages (stderr/log output); the embedding records which
message is produced, not its exact text. -/
inductive Msg where
  | srcMissing           -- "源路径不存在，跳过"
  | symlinkSrcMissing    -- "软链接源不存在，跳过"
  | symlinkFailed        -- "创建软链接失败"
  | backupDone           -- "已备份到 ..."
  | pathConflict         -- "路径已存在且非预期软链接，跳过"
  | unknownType          -- "未知 type=..., 跳过"
  | emptyBranch          -- "init 配置中 git-branch 为空，设置为 main"
  | noUrl                -- "init 配置中 git-url 为空，跳过主库远程配置"
  | fetching             -- "正在从 ... 获取更新..."
  | mainRepoGitFailed    -- "主库 Git 配置失败"
  | initialCommitDone    -- "已创建初始提交（.gitignore）"
  | committed            -- "已自动提交"
  | commitFailed         -- "自动提交失败"
  | remoteBranchMissing  -- "远程不存在分支 ..., 将创建该分支后再加入主库"
  | newBranchPushed      -- "子模块 ...: 远程无分支 ..., 新建并推送"
  | addingSubmodule      -- "正在添加子模块 ..."
  | submoduleInitFailed  -- "子模块 ... 初始化失败"
  deriving DecidableEq

/-- One element of `config["subdir"]`.  `none` models an absent key. -/
structure SubdirItem where
  path : Option Str
  name : Option Str
  type : Option Str
  url : Option Str
  branch : Option Str
  ignore : List Str      -- cfg.get("ignore") or []
  symlink : List Str     -- cfg.get("symlink") or []
  isIgnored : Bool       -- cfg.get("is-ignored", False)
  deriving DecidableEq

/-- `config["init"]`; a missing section is all-`none`. -/
structure InitCfg where
  gitRemote : Option Str     -- "git-remote"
  gitBranch : Option Str     -- "git-branch"
  gitUrl : Option Str        -- "git-url"
  backupFolder : Option Str  -- "backup-folder"
  lineSplitter : Option Str  -- "line-splitter"
  deriving DecidableEq

/-- The parsed `init.yaml`. -/
structure Config where
  init : InitCfg
  subdir : List SubdirItem   -- config.get("subdir") or []
  deriving DecidableEq

/-! ## Source trees and the projector (`copy.py`) -/

mutual
/-- A directory tree on disk: what `iterdir` / `is_dir` / `is_file` see. -/
inductive FsTree where
  | file (data : List Nat)
  | dir (children : FsForest)

/-- The ordered entries of a directory. -/
inductive FsForest where
  | nil
  | cons (name : Str) (t : FsTree) (rest : FsForest)
end

/-- The entry names of a directory. -/
def forestNames : FsForest → List Str
  | .nil => []
  | .cons name _ rest => name :: forestNames rest

mutual
/-- Well-formedness: entry names are unique in every directory, as they are
on a real filesystem. -/
def treeWF : FsTree → Bool
  | .file _ => true
  | .dir ch => forestWF ch
def forestWF : FsForest → Bool
  | .nil => true
  | .cons name t rest =>
      !(forestNames rest).contains name && treeWF t && forestWF rest
end

mutual
/-- The bytes of the file at a component path, if any. -/
def findFile : FsTree → List Str → Option (List Nat)
  | .file data, [] => some data
  | .file _, _ :: _ => none
  | .dir _, [] => none
  | .dir ch, seg :: segs => findInForest ch seg segs
def findInForest : FsForest → Str → List Str → Option (List Nat)
  | .nil, _, _ => none
  | .cons name t rest, seg, segs =>
      if name = seg then findFile t segs else findInForest rest seg segs
end

/-- Actions of the projector.  Destination paths are component lists
relative to the target root (`[]` is the target root itself). -/
inductive CAct where
  | mkdirP (dst : List Str)                    -- mkdir(parents=True, exist_ok=True)
  | copyBytes (dst : List Str) (content : List Nat)  -- file copy, content as written
  | unlinkAct (dst : List Str)                 -- Path.unlink
  | symlinkTo (link : List Str) (target : Str) -- Path.symlink_to(absolute target)
  | backupMkdir (folder : Str)                 -- backup_folder.mkdir(...)
  | copytreeAct (folder stamp : Str)           -- shutil.copytree(target_root, folder/stamp)
  | report (m : Msg)
  deriving DecidableEq

mutual
/-- `copy_tree` (copy.py 72-96): create the destination directory, then walk
the entries, skipping those whose name matches an ignore pattern or whose
path relative to the entry root is listed in `symlink_entries`; files are
written through the line-ending policy (`copy_with_line_ending` when a
policy is set, plain `copy2` — the `none` case of the same function —
otherwise). -/
def copy_tree (src : FsForest) (dst : List Str) (ignore_patterns : List Str)
    (line_ending : Option Str) (symlink_entries : List Str) (relPfx : Str) :
    List CAct :=
  CAct.mkdirP dst ::
    copyChildren src dst ignore_patterns line_ending symlink_entries relPfx

def copyChildren : FsForest → List Str → List Str → Option Str → List Str → Str →
    List CAct
  | .nil, _, _, _, _, _ => []
  | .cons name t rest, dst, ignore_patterns, line_ending, symlink_entries,
      relPfx =>
      let rel := if relPfx.isEmpty then name else relPfx ++ '/' :: name
      (if should_ignore name ignore_patterns || symlink_entries.contains rel then
        []
      else
        match t with
        | .dir ch =>
            copy_tree ch (dst ++ [name]) ignore_patterns line_ending
              symlink_entries rel
        | .file data =>
            [CAct.copyBytes (dst ++ [name])
              (copy_with_line_ending data line_ending)]) ++
      copyChildren rest dst ignore_patterns line_ending symlink_entries relPfx
end

/-- The name chain of a copied entry is admissible: no component name is
ignored and no relative path along the chain is a symlink entry.  This is
the exact per-level test `copy_tree` applies. -/
def chainAllowed (ignore_patterns symlink_entries : List Str) :
    Str → List Str → Bool
  | _, [] => true
  | relPfx, name :: segs =>
      let rel := if relPfx.isEmpty then name else relPfx ++ '/' :: name
      !(should_ignore name ignore_patterns || symlink_entries.contains rel) &&
        chainAllowed ignore_patterns symlink_entries rel segs

/-- `α → List β` concatenation map (kept explicit for easy induction). -/
def concatMap (f : α → List β) : List α → List β
  | [] => []
  | x :: xs => f x ++ concatMap f xs

/-- The external world one `apply_subdir` call runs against. -/
structure CopyWorld where
  pathExists : Bool          -- path.exists() for the entry source
  pathIsFile : Bool          -- path.is_file()
  fileData : List Nat        -- the bytes when the source is a single file
  tree : FsForest            -- the directory listing when it is a directory
  srcItemExists : Str → Bool -- (path / rel).resolve().exists()
  resolveSrc : Str → Str     -- str((path / rel).resolve()), an absolute path
  dstExists : List Str → Bool   -- dst_item.exists() (resolves symlinks)
  symlinkFails : List Str → Bool  -- OSError from Path.symlink_to (caught)

/-- The post-copy symbolic-link substitution for one `symlinkTargets`
entry (copy.py 119-131). -/
def applySymlinkEntry (pathRel : Str) (dest : List Str) (w : CopyWorld)
    (rel : Str) : List CAct :=
  let srcKey := pyJoin pathRel rel
  if !w.srcItemExists srcKey then [CAct.report Msg.symlinkSrcMissing]
  else
    let dstItem := dest ++ segsOf rel
    (if w.dstExists dstItem then [CAct.unlinkAct dstItem] else []) ++
      CAct.mkdirP dstItem.dropLast ::
      (if w.symlinkFails dstItem then [CAct.report Msg.symlinkFailed]
       else [CAct.symlinkTo dstItem (w.resolveSrc srcKey)])

/-- `apply_subdir` (copy.py 99-131).  Returns the action trace and the
exception escaping the call, if any (`item["path"]` on an entry without a
path raises `KeyError`).  Filesystem primitives are modelled as
non-failing; `symlink_to` failure is caught by the source itself. -/
def apply_subdir (item : SubdirItem) (line_ending : Option Str) (w : CopyWorld) :
    List CAct × Option PyExc :=
  match item.path with
  | none => ([], some PyExc.keyError)
  | some p0 =>
      let pathRel := pyLstripCharset ['.', '/'] (pyStrip p0)
      let name := match item.name with
        | some n => n
        | none => posixName pathRel
      let dest := segsOf name
      if !w.pathExists then ([CAct.report Msg.srcMissing], none)
      else if w.pathIsFile then
        ([CAct.mkdirP dest.dropLast,
          CAct.copyBytes dest (copy_with_line_ending w.fileData line_ending)], none)
      else
        let symlink_entries := (item.symlink.filter (fun s => !s.isEmpty)).map
          (fun s => pyLstripCharset ['/'] (pyStrip s))
        (copy_tree w.tree dest item.ignore line_ending symlink_entries [] ++
          concatMap (applySymlinkEntry pathRel dest w) symlink_entries, none)

/-- `backup_target` (copy.py 134-142).  `targetHasContent` samples
`target_root.exists() and any(target_root.iterdir())`; the snapshot is
`shutil.copytree(target_root, backup_folder/stamp)`, which copies the whole
pre-run tree preserving metadata. -/
def backup_target (targetHasContent : Bool) (backup_folder stamp : Str) :
    List CAct :=
  if !targetHasContent then []
  else
    [CAct.backupMkdir backup_folder,
      CAct.copytreeAct backup_folder stamp,
      CAct.report Msg.backupDone]

/-- The entry loop of the projector's `main`: one `apply_subdir` per entry,
in order, with no exception handling around the calls. -/
def copyLoop (le : Option Str) (w : Nat → CopyWorld) :
    List SubdirItem → Nat → List CAct × Option PyExc
  | [], _ => ([], none)
  | item :: rest, i =>
      let pr := apply_subdir item le (w i)
      match pr.2 with
      | some e => (pr.1, some e)
      | none =>
          let pr2 := copyLoop le w rest (i + 1)
          (pr.1 ++ pr2.1, pr2.2)

/-- `main` of copy.py (lines 145-163), from the point where the
configuration is loaded: resolve the line-ending policy, back up the target
(only when backups are not suppressed **and** a backup folder is
configured), create the target root, then project every entry. -/
def copyMain (cfg : Config) (no_backup : Bool) (targetHasContent : Bool)
    (stamp : Str) (w : Nat → CopyWorld) : List CAct × Option PyExc :=
  let line_splitter := pyUpper (pyStrip (pyOr cfg.init.lineSplitter (r"NONE".toList)))
  let line_ending := lineEndingsGet line_splitter
  let backupActs :=
    if !no_backup then
      let backup_path := pyLstripCharset ['.', '/']
        (pyStrip (cfg.init.backupFolder.getD []))
      if !backup_path.isEmpty then
        backup_target targetHasContent backup_path stamp
      else []
    else []
  let pr := copyLoop line_ending w cfg.subdir 0
  (backupActs ++ CAct.mkdirP [] :: pr.1, pr.2)

/-! ## The reconciler (`init.py`) -/

/-- Actions of the reconciler.  Paths are strings relative to the
repository root. -/
inductive IAct where
  | git (args : List Str)          -- subprocess.run(["git", *args], cwd=repo_root)
  | mkdirParent (path : Str)       -- path.parent.mkdir(parents=True, exist_ok=True)
  | rmtreeAct (path : Str)         -- shutil.rmtree
  | writeFile (path content : Str) -- Path.write_text
  | ensureIgnore (file entry : Str)  -- ensure_gitignore_entry(entry, file)
  | symlinkAct (target path : Str)   -- os.symlink(target, path)
  | report (m : Msg)                 -- log.* / print output
  deriving DecidableEq

/-- The external world a reconciler run observes.  `ok args` is
`returncode == 0` of the git invocation with those arguments; the remaining
fields sample filesystem tests at their call sites.  Filesystem primitives
other than `os.symlink` are modelled as non-failing. -/
structure GitWorld where
  ok : List Str → Bool
  isRepo : Bool                 -- (repo_root/".git").exists()
  hostGitignoreExists : Bool    -- (repo_root/".gitignore").exists()
  pathIsRepo : Bool             -- path.exists() and (path/".git").exists()
  gitmodulesExists : Bool       -- .gitmodules exists, sampled during recovery
  pathExistsAfterRm : Bool      -- path.exists(), sampled after `git rm -f`
  modulesDirExists : Bool       -- (.git/modules/<rel>).exists()
  hostGitmodulesExists : Bool   -- .gitmodules exists, sampled when staging
  linkPathExists : Bool         -- path.exists() in init_symlink
  linkIsCorrect : Bool          -- path.is_symlink() and realpaths agree
  symlinkRaises : Bool          -- os.symlink raises OSError

/-- Sequencing of trace-producing steps: a raised exception short-circuits. -/
def andThen (a : List IAct × Option PyExc) (b : Unit → List IAct × Option PyExc) :
    List IAct × Option PyExc :=
  match a with
  | (t, some e) => (t, some e)
  | (t, none) => ((t ++ (b ()).1, (b ()).2))

/-- A `check=True` git invocation: raises `CalledProcessError` on failure. -/
def runTrue (w : GitWorld) (args : List Str) : List IAct × Option PyExc :=
  if w.ok args then ([IAct.git args], none)
  else ([IAct.git args], some PyExc.calledProcessError)

/-- A `check=False` git invocation: never raises. -/
def runFalse (args : List Str) : List IAct :=
  [IAct.git args]

/-- Commit message of `ensure_initial_commit`. -/
def initialCommitMsg : Str := "chore: initial commit with .gitignore".toList

/-- Content written to a fresh host `.gitignore`. -/
def rimeHeader : Str := "# Rime updator\n".toList

/-- Commit message of the nested-repository ignore update. -/
def updateGitignoreMsg : Str := "chore: update gitignore".toList

/-- Commit message of the host end-of-run commit. -/
def initCommitMsg : Str := "chore: init submodules and gitignore".toList

/-- `init_main_repo` (init.py 43-108): configure the host remote and branch.
All `CalledProcessError`s from its `check=True` invocations are caught by
the function's own `try`/`except` and logged, so it never raises. -/
def init_main_repo (init_cfg : InitCfg) (w : GitWorld) : List IAct :=
  let remote := pyStrip (pyOr init_cfg.gitRemote (r"origin".toList))
  let branch0 := pyStrip (pyOr init_cfg.gitBranch [])
  let warnActs := if branch0.isEmpty then [IAct.report Msg.emptyBranch] else []
  let branch := if branch0.isEmpty then r"main".toList else branch0
  let url := pyStrip (pyOr init_cfg.gitUrl [])
  if url.isEmpty then warnActs ++ [IAct.report Msg.noUrl]
  else
    let step1 : List IAct × Option PyExc :=
      if !w.isRepo then runTrue w [r"init".toList] else ([], none)
    let step2 : Unit → List IAct × Option PyExc := fun _ =>
      if !remote.isEmpty then
        let getUrl := [r"remote".toList, r"get-url".toList, remote]
        andThen
          (andThen (runFalse getUrl, none) (fun _ =>
            if !w.ok getUrl then
              runTrue w [r"remote".toList, r"add".toList, remote, url]
            else
              runTrue w [r"remote".toList, r"set-url".toList, remote, url]))
          (fun _ =>
            andThen ([IAct.report Msg.fetching], none) (fun _ =>
              runTrue w [r"fetch".toList, remote]))
      else ([], none)
    let step3 : Unit → List IAct × Option PyExc := fun _ =>
      if !branch.isEmpty then
        let co1 := [r"checkout".toList, r"-B".toList, branch,
          if !remote.isEmpty then remote ++ '/' :: branch else []]
        match runTrue w co1 with
        | (t, none) => (t, none)
        | (t, some _) =>
            andThen (t, none) (fun _ =>
              runTrue w [r"checkout".toList, r"-B".toList, branch])
      else ([], none)
    warnActs ++
      (match andThen (andThen step1 step2) step3 with
       | (t, some _) => t ++ [IAct.report Msg.mainRepoGitFailed]
       | (t, none) => t)

/-- `ensure_initial_commit` (init.py 111-128): bootstrap a first commit when
the host has no history.  Its `check=True` invocations are *not* wrapped in
a `try`, so their failure escapes. -/
def ensure_initial_commit (w : GitWorld) : List IAct × Option PyExc :=
  let rv := [r"rev-parse".toList, r"HEAD".toList]
  andThen (runFalse rv, none) fun _ =>
    if w.ok rv then ([], none)
    else
      andThen
        ((if !w.hostGitignoreExists then
            [IAct.writeFile (r".gitignore".toList) rimeHeader]
          else []), none) fun _ =>
      andThen (runTrue w [r"add".toList, r".gitignore".toList]) fun _ =>
      andThen (runTrue w [r"commit".toList, r"-m".toList, initialCommitMsg]) fun _ =>
        ([IAct.report Msg.initialCommitDone], none)

/-- `git_commit_if_changed` (init.py 151-160): commit iff the index holds
staged changes; a failing commit is caught and printed, never raised. -/
def git_commit_if_changed (message : Str) (w : GitWorld) : List IAct :=
  let chk := [r"diff".toList, r"--cached".toList, r"--quiet".toList]
  runFalse chk ++
    (if !w.ok chk then
      let cm := [r"commit".toList, r"-m".toList, message]
      IAct.git cm ::
        (if w.ok cm then [IAct.report Msg.committed]
         else [IAct.report Msg.commitFailed])
    else [])

/-- `_submodule_ensure_branch` (init.py 163-193): inside the nested repo,
track the remote branch when it exists, otherwise create it and push it
upstream.  The checkouts are `check=True` and may raise. -/
def _submodule_ensure_branch (path branch : Str) (w : GitWorld) :
    List IAct × Option PyExc :=
  let fetchArgs := [r"-C".toList, path, r"fetch".toList, r"origin".toList]
  let rv := [r"-C".toList, path, r"rev-parse".toList, r"--verify".toList,
    r"origin/".toList ++ branch]
  andThen (runFalse fetchArgs ++ runFalse rv, none) fun _ =>
    if w.ok rv then
      runTrue w [r"-C".toList, path, r"checkout".toList, r"-B".toList, branch,
        r"origin/".toList ++ branch]
    else
      andThen ([IAct.report Msg.newBranchPushed], none) fun _ =>
      andThen
        (runTrue w [r"-C".toList, path, r"checkout".toList, r"-B".toList, branch])
        fun _ =>
          (runFalse [r"-C".toList, path, r"push".toList, r"-u".toList,
            r"origin".toList, branch], none)

/-- The branch/bind phase of `init_submodule` (init.py 206-265), including
the recovery sequence run when the bind naming the requested branch fails. -/
def init_submodule_bind (path_str path url branch : Str) (w : GitWorld) :
    List IAct × Option PyExc :=
  if w.pathIsRepo then _submodule_ensure_branch path branch w
  else
    let add1 := [r"submodule".toList, r"add".toList, r"-f".toList,
      r"-b".toList, branch, url, path]
    andThen
      ([IAct.mkdirParent path, IAct.report Msg.addingSubmodule] ++ runFalse add1,
        none) fun _ =>
    if w.ok add1 then ([], none)
    else
      let rel := path
      let rmSection := r"submodule.".toList ++ rel
      andThen
        ([IAct.report Msg.remoteBranchMissing] ++
          runFalse [r"submodule".toList, r"deinit".toList, r"-f".toList, rel] ++
          runFalse [r"rm".toList, r"-f".toList, rel] ++
          runFalse [r"config".toList, r"--remove-section".toList, rmSection] ++
          (if w.gitmodulesExists then
            runFalse [r"config".toList, r"-f".toList, r".gitmodules".toList,
              r"--remove-section".toList, rmSection]
          else []) ++
          (if w.pathExistsAfterRm then [IAct.rmtreeAct path] else []) ++
          (if w.modulesDirExists then
            [IAct.rmtreeAct (r".git/modules/".toList ++ rel)]
          else []), none) fun _ =>
      andThen
        (runTrue w [r"submodule".toList, r"add".toList, r"-f".toList, url,
          path_str]) fun _ =>
        _submodule_ensure_branch path branch w

/-- The ignore/stage phase of `init_submodule` (init.py 267-303): merge the
patterns into the nested `.gitignore`, commit and push there when the stage
is non-empty, then stage the path (and `.gitmodules` when present) in the
host.  Everything here is `check=False`. -/
def init_submodule_stage (path : Str) (ignore_list : List Str) (w : GitWorld) :
    List IAct :=
  let gi := path ++ r"/.gitignore".toList
  let dchk := [r"-C".toList, path, r"diff".toList, r"--cached".toList,
    r"--quiet".toList]
  ignore_list.map (fun pattern => IAct.ensureIgnore gi (pyStrip pattern)) ++
    runFalse [r"-C".toList, path, r"add".toList, r".gitignore".toList] ++
    runFalse dchk ++
    (if !w.ok dchk then
      runFalse [r"-C".toList, path, r"commit".toList, r"-m".toList,
        updateGitignoreMsg] ++
        runFalse [r"-C".toList, path, r"push".toList]
    else []) ++
    runFalse [r"add".toList, path] ++
    (if w.hostGitmodulesExists then
      runFalse [r"add".toList, r".gitmodules".toList]
    else [])

/-- `init_submodule` (init.py 196-306).  `cfg["path"]` and `cfg["url"]`
raise `KeyError` when absent (outside the `try`); the `try` around the body
catches exactly `CalledProcessError` and logs it. -/
def init_submodule (cfg : SubdirItem) (w : GitWorld) : List IAct × Option PyExc :=
  match cfg.path with
  | none => ([], some PyExc.keyError)
  | some p0 =>
      match cfg.url with
      | none => ([], some PyExc.keyError)
      | some u0 =>
          let path_str := pyStrip p0
          let path := pyLstripCharset ['.', '/'] path_str
          let url := pyStrip u0
          let branch := cfg.branch.getD (r"main".toList)
          let body := andThen (init_submodule_bind path_str path url branch w)
            (fun _ => (init_submodule_stage path cfg.ignore w, none))
          match body with
          | (t, some PyExc.calledProcessError) =>
              (t ++ [IAct.report Msg.submoduleInitFailed], none)
          | other => other

/-- `init_symlink` (init.py 309-335).  The ignore patterns are merged before
the existence check; an existing non-matching path is reported and skipped;
`os.symlink` failure is **not** caught and escapes. -/
def init_symlink (cfg : SubdirItem) (w : GitWorld) : List IAct × Option PyExc :=
  match cfg.path with
  | none => ([], some PyExc.keyError)
  | some p0 =>
      match cfg.url with
      | none => ([], some PyExc.keyError)
      | some t0 =>
          let path_str := pyStrip p0
          let path := pyLstripCharset ['.', '/'] path_str
          let target := pyStrip t0
          let gi := r".gitignore".toList
          let igActs := cfg.ignore.map
            (fun pattern => IAct.ensureIgnore gi (pyJoin path_str pattern))
          if w.linkPathExists then
            if w.linkIsCorrect then (igActs, none)
            else (igActs ++ [IAct.report Msg.pathConflict], none)
          else
            let pre := igActs ++ [IAct.mkdirParent path]
            if w.symlinkRaises then (pre, some PyExc.osError)
            else
              (pre ++ IAct.symlinkAct target path ::
                ((if cfg.isIgnored then [IAct.ensureIgnore gi path_str] else []) ++
                  runFalse [r"add".toList, path] ++
                  runFalse [r"add".toList, gi]), none)

/-- Dispatch of one entry in the reconciler's `main` loop (init.py 346-357):
entries with an empty name or path are skipped, `gitsubmodule` and `ln` are
dispatched, anything else is reported and skipped. -/
def initProcessItem (item : SubdirItem) (w : GitWorld) :
    List IAct × Option PyExc :=
  let name := item.name.getD []
  let path := item.path.getD []
  let typ := pyLower (pyStrip (pyOr item.type (r"gitsubmodule".toList)))
  if name.isEmpty || path.isEmpty then ([], none)
  else if typ = r"gitsubmodule".toList then init_submodule item w
  else if typ = r"ln".toList then init_symlink item w
  else ([IAct.report Msg.unknownType], none)

/-- The reconciler's entry loop: sequential, with no exception handling
around the per-entry calls, so a raised exception stops the loop. -/
def initLoop (w : Nat → GitWorld) : List SubdirItem → Nat → List IAct × Option PyExc
  | [], _ => ([], none)
  | item :: rest, i =>
      let pr := initProcessItem item (w i)
      match pr.2 with
      | some e => (pr.1, some e)
      | none =>
          let pr2 := initLoop w rest (i + 1)
          (pr.1 ++ pr2.1, pr2.2)

/-- `main` of init.py (lines 338-376), after the configuration is loaded:
configure the host repo, bootstrap an initial commit, process the entries,
stage everything and commit if changed.  Line 362 then calls
`pull_main_repo(repo_root, init_cfg)`, a function that is defined nowhere in
the script (nor anywhere else in the repository), so execution raises
`NameError` at that point; the remote lookup and `git push` of lines
363-376 are unreachable. -/
def initMain (cfg : Config) (w0 : GitWorld) (w : Nat → GitWorld) :
    List IAct × Option PyExc :=
  let a1 := init_main_repo cfg.init w0
  andThen (a1, none) fun _ =>
  andThen (ensure_initial_commit w0) fun _ =>
  andThen (initLoop w cfg.subdir 0) fun _ =>
  andThen (runFalse [r"add".toList, r"-A".toList] ++
    git_commit_if_changed initCommitMsg w0, none) fun _ =>
    ([], some PyExc.nameError)

/-! ## Concrete instances used in witnesses and counterexamples -/

/-- A nested-repository entry used in witnesses. -/
def subEntry : SubdirItem where
  path := some (r"sub".toList)
  name := some (r"s".toList)
  type := none
  url := some (r"u".toList)
  branch := none
  ignore := []
  symlink := []
  isIgnored := false

/-- The bind invocation naming the requested branch for `subEntry`. -/
def subAdd1Args : List Str :=
  [r"submodule".toList, r"add".toList, r"-f".toList, r"-b".toList,
    r"main".toList, r"u".toList, r"sub".toList]

/-- A world where every git command succeeds except `subEntry`'s bind naming
the requested branch, and every filesystem probe answers `true` except that
the entry is not yet a repository. -/
def recoveryWorld : GitWorld where
  ok := fun args => args ≠ subAdd1Args
  isRepo := true
  hostGitignoreExists := true
  pathIsRepo := false
  gitmodulesExists := true
  pathExistsAfterRm := true
  modulesDirExists := true
  hostGitmodulesExists := true
  linkPathExists := false
  linkIsCorrect := false
  symlinkRaises := false

/-- A world where every git command succeeds and every filesystem probe
answers `true`. -/
def allOkWorld : GitWorld where
  ok := fun _ => true
  isRepo := true
  hostGitignoreExists := true
  pathIsRepo := true
  gitmodulesExists := true
  pathExistsAfterRm := true
  modulesDirExists := true
  hostGitmodulesExists := true
  linkPathExists := false
  linkIsCorrect := false
  symlinkRaises := false

/-- A configuration with a configured remote URL and no entries. -/
def pushCfg : Config where
  init :=
    { gitRemote := none
      gitBranch := none
      gitUrl := some (r"u".toList)
      backupFolder := none
      lineSplitter := none }
  subdir := []

/-- Whether a reconciler action is a `git push` invocation. -/
def mentionsPush : IAct → Bool
  | IAct.git args => args.contains (r"push".toList)
  | _ => false

/-- The per-entry trace of the reconciler loop as if every entry ran: the
reference against which loop truncation is measured. -/
def initLoopFull (w : Nat → GitWorld) : List SubdirItem → Nat → List IAct
  | [], _ => []
  | item :: rest, i =>
      (initProcessItem item (w i)).1 ++ initLoopFull w rest (i + 1)

/-- The per-entry trace of the projector loop as if every entry ran. -/
def copyLoopFull (le : Option Str) (w : Nat → CopyWorld) :
    List SubdirItem → Nat → List CAct
  | [], _ => []
  | item :: rest, i =>
      (apply_subdir item le (w i)).1 ++ copyLoopFull le w rest (i + 1)

/-- The conditions under which no exception escapes one reconciler entry:
skipped entries and unknown types are safe, a NestedRepo entry needs its
`url` key, a SymbolicLink entry needs its `url` key and either an already
existing path or an `os.symlink` that does not raise. -/
def entryIsolated (item : SubdirItem) (w : GitWorld) : Bool :=
  let name := item.name.getD []
  let path := item.path.getD []
  let typ := pyLower (pyStrip (pyOr item.type (r"gitsubmodule".toList)))
  name.isEmpty || path.isEmpty ||
    (if typ = r"gitsubmodule".toList then item.url.isSome
     else if typ = r"ln".toList then
       item.url.isSome && (w.linkPathExists || !w.symlinkRaises)
     else true)

/-- A symlink entry with no `url` key: `init_symlink` raises `KeyError`. -/
def lnNoUrl : SubdirItem where
  path := some (r"p".toList)
  name := some (r"a".toList)
  type := some (r"ln".toList)
  url := none
  branch := none
  ignore := []
  symlink := []
  isIgnored := false

/-- A projector world whose entry source is a single one-byte file. -/
def fileWorld : CopyWorld where
  pathExists := true
  pathIsFile := true
  fileData := [97]
  tree := FsForest.nil
  srcItemExists := fun _ => false
  resolveSrc := fun s => s
  dstExists := fun _ => false
  symlinkFails := fun _ => false

/-- An entry whose type is not a known value. -/
def bogusEntry : SubdirItem where
  path := some (r"p".toList)
  name := some (r"x".toList)
  type := some (r"bogus".toList)
  url := none
  branch := none
  ignore := []
  symlink := []
  isIgnored := false

/-- A NestedRepo entry with a path but no name field. -/
def noNameEntry : SubdirItem where
  path := some (r"sub/dir".toList)
  name := none
  type := none
  url := some (r"u".toList)
  branch := none
  ignore := []
  symlink := []
  isIgnored := false

/-- A configuration with a backup folder, no entries. -/
def bkCfg : Config where
  init :=
    { gitRemote := none
      gitBranch := none
      gitUrl := none
      backupFolder := some (r"./bk".toList)
      lineSplitter := none }
  subdir := []

/-- Whether a projector action is the backup snapshot. -/
def isSnapshotAct : CAct → Bool
  | CAct.copytreeAct _ _ => true
  | _ => false

/-- A source tree with files `a.tmp` and `b.txt` and a subdirectory `sub`
holding `c.tmp`, used to exercise ignore-pattern exclusion. -/
def demoForest : FsForest :=
  FsForest.cons (r"a.tmp".toList) (FsTree.file [97])
    (FsForest.cons (r"b.txt".toList) (FsTree.file [98])
      (FsForest.cons (r"sub".toList)
        (FsTree.dir (FsForest.cons (r"c.tmp".toList) (FsTree.file [99])
          FsForest.nil))
        FsForest.nil))

/-- The relative path a chain of entry names denotes, as `copy_tree` builds
it (`relPfx` joined with `/`). -/
def relOfChain : Str → List Str → Str
  | pfx, [] => pfx
  | pfx, name :: segs =>
      relOfChain (if pfx.isEmpty then name else pfx ++ '/' :: name) segs

/-- The normalized `symlinkTargets` list of an entry: drop empty strings,
strip whitespace and leading slashes (copy.py line 115). -/
def normSymlinks (item : SubdirItem) : List Str :=
  (item.symlink.filter (fun s => !s.isEmpty)).map
    (fun s => pyLstripCharset ['/'] (pyStrip s))

/-- A directory-shaped entry with one symlink target. -/
def symEntry : SubdirItem where
  path := some (r"sd".toList)
  name := some (r"s".toList)
  type := none
  url := some (r"u".toList)
  branch := none
  ignore := []
  symlink := [r"ln1".toList]
  isIgnored := false

/-- A projector world whose entry source is the demo directory tree, with
every symlink source resolvable and no failures. -/
def symWorld : CopyWorld where
  pathExists := true
  pathIsFile := false
  fileData := []
  tree := demoForest
  srcItemExists := fun _ => true
  resolveSrc := fun s => r"/abs/".toList ++ s
  dstExists := fun _ => false
  symlinkFails := fun _ => false

/-! ### Facts about the line-ending transformation -/

theorem replaceL_nil (p : Char) (ps rep : List Char) :
    replaceL (p :: ps) rep [] = [] := by
  simp [replaceL]

theorem replaceL_cons_pos {p c : Char} {ps rest : List Char} (rep : List Char)
    (h : ((p :: ps).isPrefixOf (c :: rest)) = true) :
    replaceL (p :: ps) rep (c :: rest) =
      rep ++ replaceL (p :: ps) rep (rest.drop ps.length) := by
  simp only [replaceL, h]
  simp

theorem replaceL_cons_neg {p c : Char} {ps rest : List Char} (rep : List Char)
    (h : ((p :: ps).isPrefixOf (c :: rest)) = false) :
    replaceL (p :: ps) rep (c :: rest) = c :: replaceL (p :: ps) rep rest := by
  simp only [replaceL, h]
  simp

theorem replaceL_cr_not_mem (s : List Char) : '\r' ∉ replaceL ['\r'] ['\n'] s := by
  induction s with
  | nil => simp [replaceL]
  | cons c rest ih =>
      by_cases hc : c = '\r'
      · subst hc
        rw [replaceL_cons_pos _ (by simp [List.isPrefixOf])]
        simpa using ih
      · rw [replaceL_cons_neg _ (by simp [List.isPrefixOf]; exact fun e => hc e.symm)]
        simpa [hc, eq_comm] using ih

theorem crlfOk_crlf (l : List Char) : crlfOk ('\r' :: '\n' :: l) = crlfOk l := by
  rw [crlfOk.eq_def]
  simp

theorem crlfOk_cons_other {c : Char} (l : List Char) (hc : c ≠ '\r') (hn : c ≠ '\n') :
    crlfOk (c :: l) = crlfOk l := by
  rw [crlfOk.eq_def]
  simp [hc, hn]

theorem crlfOk_replaceL_lf (s : List Char) (h : '\r' ∉ s) :
    crlfOk (replaceL ['\n'] ['\r', '\n'] s) = true := by
  induction s with
  | nil => simp [replaceL, crlfOk]
  | cons c rest ih =>
      have hc : c ≠ '\r' := fun e => h (e ▸ List.mem_cons_self c rest)
      have hrest : '\r' ∉ rest := fun e => h (List.mem_cons_of_mem c e)
      by_cases hn : c = '\n'
      · subst hn
        rw [replaceL_cons_pos _ (by simp [List.isPrefixOf])]
        simp only [List.length_nil, List.drop_zero, List.cons_append,
          List.nil_append, crlfOk_crlf]
        exact ih hrest
      · rw [replaceL_cons_neg _ (by simp [List.isPrefixOf]; exact fun e => hn e.symm)]
        rw [crlfOk_cons_other _ hc hn]
        exact ih hrest

theorem utf8EncodeChar_not_mem_13 (c : Char) (h : c ≠ '\r') :
    (13 : Nat) ∉ utf8EncodeChar c := by
  intro hm
  simp only [utf8EncodeChar] at hm
  split_ifs at hm with h1 h2 h3 <;> simp only [List.mem_cons, List.mem_singleton,
    List.not_mem_nil, or_false] at hm
  · apply h
    have h13 : c.toNat = 13 := hm.symm
    have := congrArg Char.ofNat h13
    rwa [Char.ofNat_toNat] at this
  all_goals omega

theorem utf8Encode_not_mem_13 (l : List Char) (h : '\r' ∉ l) :
    (13 : Nat) ∉ utf8Encode l := by
  induction l with
  | nil => simp [utf8Encode]
  | cons c rest ih =>
      have hc : c ≠ '\r' := fun e => h (e ▸ List.mem_cons_self c rest)
      have hrest : '\r' ∉ rest := fun e => h (List.mem_cons_of_mem c e)
      simp only [utf8Encode, List.mem_append]
      rintro (hm | hm)
      · exact utf8EncodeChar_not_mem_13 c hc hm
      · exact ih hrest hm

/-- C5: under a non-`None` line-ending policy, decodable input is rewritten
by normalizing `\r\n` and `\r` to `\n` and then expanding `\n` to the
policy separator (so the LF policy leaves no carriage return — not even at
the byte level — and the CRLF policy yields only `\r\n` terminators);
undecodable input is copied byte-identically, as is all input under the
`None` policy, which performs no decoding. -/
theorem copy_line_ending_correct (data : List Nat) :
    copy_with_line_ending data none = data
    ∧ (utf8Decode data = none → ∀ le, copy_with_line_ending data (some le) = data)
    ∧ (∀ text, utf8Decode data = some text →
        (∀ le, copy_with_line_ending data (some le) =
            utf8Encode (if le ≠ ['\n'] then
                replaceL ['\n'] le
                  (replaceL ['\r'] ['\n'] (replaceL ['\r', '\n'] ['\n'] text))
              else
                replaceL ['\r'] ['\n'] (replaceL ['\r', '\n'] ['\n'] text)))
        ∧ (∃ out, copy_with_line_ending data (some ['\n']) = utf8Encode out
            ∧ noCR out = true
            ∧ (13 : Nat) ∉ copy_with_line_ending data (some ['\n']))
        ∧ (∃ out, copy_with_line_ending data (some ['\r', '\n']) = utf8Encode out
            ∧ crlfOk out = true)) := by
  refine ⟨rfl, ?_, ?_⟩
  · intro hd le
    simp [copy_with_line_ending, hd]
  · intro text hd
    have hnocr : '\r' ∉ replaceL ['\r'] ['\n'] (replaceL ['\r', '\n'] ['\n'] text) :=
      replaceL_cr_not_mem _
    refine ⟨?_, ?_, ?_⟩
    · intro le
      simp only [copy_with_line_ending, hd]
    · refine ⟨replaceL ['\r'] ['\n'] (replaceL ['\r', '\n'] ['\n'] text), ?_, ?_, ?_⟩
      · simp [copy_with_line_ending, hd]
      · simpa [noCR] using hnocr
      · have : copy_with_line_ending data (some ['\n']) =
            utf8Encode (replaceL ['\r'] ['\n'] (replaceL ['\r', '\n'] ['\n'] text)) := by
          simp [copy_with_line_ending, hd]
        rw [this]
        exact utf8Encode_not_mem_13 _ hnocr
    · refine ⟨replaceL ['\n'] ['\r', '\n']
          (replaceL ['\r'] ['\n'] (replaceL ['\r', '\n'] ['\n'] text)), ?_, ?_⟩
      · simp [copy_with_line_ending, hd]
      · exact crlfOk_replaceL_lf _ hnocr

/-- C5 witness: the theorem applied to the UTF-8 bytes of `a\r\nb\rc\nd`. -/
theorem copy_line_ending_correct_witness :
    utf8Decode [97, 13, 10, 98, 13, 99, 10, 100] =
      some ['a', '\r', '\n', 'b', '\r', 'c', '\n', 'd']
    ∧ (∃ out,
        copy_with_line_ending [97, 13, 10, 98, 13, 99, 10, 100] (some ['\n']) =
          utf8Encode out
        ∧ noCR out = true
        ∧ (13 : Nat) ∉ copy_with_line_ending [97, 13, 10, 98, 13, 99, 10, 100]
            (some ['\n'])) :=
  ⟨by decide,
    ((copy_line_ending_correct [97, 13, 10, 98, 13, 99, 10, 100]).2.2
      ['a', '\r', '\n', 'b', '\r', 'c', '\n', 'd'] (by decide)).2.1⟩

/-! ### Facts about `splitlines` and the ignore-file merge -/

theorem splitlinesGo_nonbreak {c : Char} (h1 : isPyLineBreak c = false) (b : Bool)
    (rest acc : List Char) :
    splitlinesGo b (c :: rest) acc = splitlinesGo false rest (c :: acc) := by
  have h2 : c ≠ '\r' := by rintro rfl; simp [isPyLineBreak] at h1
  have h3 : c ≠ '\n' := by rintro rfl; simp [isPyLineBreak] at h1
  simp [splitlinesGo, h1, h2, h3]

theorem splitlinesGo_false_lf (rest acc : List Char) :
    splitlinesGo false ('\n' :: rest) acc = acc.reverse :: splitlinesGo false rest [] := by
  simp [splitlinesGo, isPyLineBreak]

theorem splitlinesGo_true_lf (rest acc : List Char) :
    splitlinesGo true ('\n' :: rest) acc = splitlinesGo false rest acc := by
  simp [splitlinesGo]

theorem splitlinesGo_cr (b : Bool) (rest acc : List Char) :
    splitlinesGo b ('\r' :: rest) acc = acc.reverse :: splitlinesGo true rest [] := by
  simp [splitlinesGo]

theorem splitlinesGo_break_other {c : Char} (h1 : isPyLineBreak c = true)
    (h2 : c ≠ '\r') (h3 : c ≠ '\n') (b : Bool) (rest acc : List Char) :
    splitlinesGo b (c :: rest) acc = acc.reverse :: splitlinesGo false rest [] := by
  simp [splitlinesGo, h1, h2, h3]

/-- A line with no break characters, terminated by `\n`, is one whole line. -/
theorem splitlinesGo_terminated (n : List Char)
    (hn : ∀ c ∈ n, isPyLineBreak c = false) :
    ∀ acc, splitlinesGo false (n ++ ['\n']) acc = [acc.reverse ++ n] := by
  induction n with
  | nil =>
      intro acc
      rw [List.nil_append, splitlinesGo_false_lf]
      simp [splitlinesGo]
  | cons c m ih =>
      intro acc
      have hc : isPyLineBreak c = false := hn c (List.mem_cons_self c m)
      rw [List.cons_append, splitlinesGo_nonbreak hc,
        ih (fun x hx => hn x (List.mem_cons_of_mem c hx)) (c :: acc)]
      simp

/-- The line appended after a `\n` shows up in the split, whatever precedes. -/
theorem mem_splitlinesGo_append (n : List Char)
    (hn : ∀ c ∈ n, isPyLineBreak c = false) :
    ∀ (t : List Char) (b : Bool) (acc : List Char), (b = true → acc = []) →
      n ∈ splitlinesGo b (t ++ '\n' :: (n ++ ['\n'])) acc := by
  intro t
  induction t with
  | nil =>
      intro b acc hinv
      cases b with
      | false =>
          rw [List.nil_append, splitlinesGo_false_lf,
            splitlinesGo_terminated n hn []]
          simp
      | true =>
          rw [hinv rfl, List.nil_append, splitlinesGo_true_lf,
            splitlinesGo_terminated n hn []]
          simp
  | cons c t' ih =>
      intro b acc hinv
      rw [List.cons_append]
      by_cases hbr : isPyLineBreak c = false
      · rw [splitlinesGo_nonbreak hbr]
        exact ih false (c :: acc) (by simp)
      · rw [Bool.not_eq_false] at hbr
        by_cases hcr : c = '\r'
        · subst hcr
          rw [splitlinesGo_cr]
          exact List.mem_cons_of_mem _ (ih true [] (fun _ => rfl))
        · by_cases hlf : c = '\n'
          · subst hlf
            cases b with
            | false =>
                rw [splitlinesGo_false_lf]
                exact List.mem_cons_of_mem _ (ih false [] (by simp))
            | true =>
                rw [hinv rfl, splitlinesGo_true_lf]
                exact ih false [] (by simp)
          · rw [splitlinesGo_break_other hbr hcr hlf]
            exact List.mem_cons_of_mem _ (ih false [] (by simp))

/-- C9 (amended): for a pattern whose normalized form contains no line-break
character and is stable under normalization, the merge leaves the file
unchanged when a matching line is present, only ever appends, and is
idempotent. -/
theorem ensure_gitignore_merge_dedup (p : List Char)
    (hnb : ∀ c ∈ _normalize_gitignore_entry p, isPyLineBreak c = false)
    (hst : _normalize_gitignore_entry (_normalize_gitignore_entry p) =
      _normalize_gitignore_entry p) :
    (∀ text,
      ((pySplitlines text).any
        (fun line =>
          _normalize_gitignore_entry line == _normalize_gitignore_entry p)) = true →
      ensure_gitignore_entry p (some text) = text)
    ∧ (∀ text, ensure_gitignore_entry p (some text) = text ∨
        ensure_gitignore_entry p (some text) =
          text ++ '\n' :: (_normalize_gitignore_entry p ++ ['\n']))
    ∧ (∀ g, ensure_gitignore_entry p (some (ensure_gitignore_entry p g)) =
        ensure_gitignore_entry p g) := by
  have hpresent : ∀ text,
      ((pySplitlines text).any
        (fun line =>
          _normalize_gitignore_entry line == _normalize_gitignore_entry p)) = true →
      ensure_gitignore_entry p (some text) = text := by
    intro text h
    simp only [ensure_gitignore_entry, h, if_pos]
  refine ⟨hpresent, ?_, ?_⟩
  · intro text
    by_cases h : ((pySplitlines text).any
        (fun line =>
          _normalize_gitignore_entry line == _normalize_gitignore_entry p)) = true
    · exact Or.inl (hpresent text h)
    · right
      rw [Bool.not_eq_true] at h
      simp only [ensure_gitignore_entry, h]
      simp
  · intro g
    match g with
    | none =>
        show ensure_gitignore_entry p
            (some (_normalize_gitignore_entry p ++ ['\n'])) = _
        apply hpresent
        rw [pySplitlines, splitlinesGo_terminated _ hnb []]
        simp [hst]
    | some text =>
        by_cases h : ((pySplitlines text).any
            (fun line =>
              _normalize_gitignore_entry line == _normalize_gitignore_entry p)) = true
        · rw [hpresent text h, hpresent text h]
        · rw [Bool.not_eq_true] at h
          have hexp : ensure_gitignore_entry p (some text) =
              text ++ '\n' :: (_normalize_gitignore_entry p ++ ['\n']) := by
            simp only [ensure_gitignore_entry, h]
            simp
          rw [hexp]
          apply hpresent
          rw [pySplitlines]
          have hmem := mem_splitlinesGo_append _ hnb text false [] (by simp)
          rw [List.any_eq_true]
          exact ⟨_, hmem, by simp [hst]⟩

/-- C9 counterexample: the merge is **not** idempotent for every pattern.  A
pattern containing an embedded newline, or one whose normalization strips
`./` in front of whitespace, is re-appended by a second merge. -/
theorem ensure_gitignore_merge_not_idempotent :
    ensure_gitignore_entry ['a', '\n', 'b']
        (some (ensure_gitignore_entry ['a', '\n', 'b'] none)) ≠
      ensure_gitignore_entry ['a', '\n', 'b'] none
    ∧ ensure_gitignore_entry ['.', '/', ' ', 'a']
        (some (ensure_gitignore_entry ['.', '/', ' ', 'a'] none)) ≠
      ensure_gitignore_entry ['.', '/', ' ', 'a'] none := by
  constructor
  · decide
  · decide

/-- C9 witness: merging `foo` into a file that already lists `./foo`. -/
theorem ensure_gitignore_merge_dedup_witness :
    (∀ c ∈ _normalize_gitignore_entry ['f', 'o', 'o'], isPyLineBreak c = false)
    ∧ ensure_gitignore_entry ['f', 'o', 'o']
        (some ['.', '/', 'f', 'o', 'o', '\n']) = ['.', '/', 'f', 'o', 'o', '\n']
    ∧ ensure_gitignore_entry ['f', 'o', 'o']
        (some (ensure_gitignore_entry ['f', 'o', 'o'] (some ['b', 'a', 'r', '\n']))) =
      ensure_gitignore_entry ['f', 'o', 'o'] (some ['b', 'a', 'r', '\n']) :=
  ⟨by decide,
    (ensure_gitignore_merge_dedup ['f', 'o', 'o'] (by decide) (by decide)).1
      ['.', '/', 'f', 'o', 'o', '\n'] (by decide),
    (ensure_gitignore_merge_dedup ['f', 'o', 'o'] (by decide) (by decide)).2.2
      (some ['b', 'a', 'r', '\n'])⟩

theorem runTrue_fst (w : GitWorld) (args : List Str) :
    (runTrue w args).1 = [IAct.git args] := by
  unfold runTrue; split <;> rfl

theorem andThen_none (t : List IAct) (b : Unit → List IAct × Option PyExc) :
    andThen (t, none) b = (t ++ (b ()).1, (b ()).2) := rfl

theorem andThen_some (t : List IAct) (e : PyExc) (b : Unit → List IAct × Option PyExc) :
    andThen (t, some e) b = (t, some e) := rfl

theorem andThen_runTrue (w : GitWorld) (args : List Str)
    (b : Unit → List IAct × Option PyExc) :
    andThen (runTrue w args) b =
      if w.ok args then (IAct.git args :: (b ()).1, (b ()).2)
      else ([IAct.git args], some PyExc.calledProcessError) := by
  unfold runTrue
  split <;> simp [andThen_none, andThen_some]

theorem ensure_branch_trace (path branch : Str) (w : GitWorld) :
    (_submodule_ensure_branch path branch w).1 =
      [IAct.git [r"-C".toList, path, r"fetch".toList, r"origin".toList],
       IAct.git [r"-C".toList, path, r"rev-parse".toList, r"--verify".toList,
         r"origin/".toList ++ branch]] ++
      (if w.ok [r"-C".toList, path, r"rev-parse".toList, r"--verify".toList,
          r"origin/".toList ++ branch] then
        [IAct.git [r"-C".toList, path, r"checkout".toList, r"-B".toList, branch,
          r"origin/".toList ++ branch]]
      else
        [IAct.report Msg.newBranchPushed,
         IAct.git [r"-C".toList, path, r"checkout".toList, r"-B".toList, branch]] ++
        (if w.ok [r"-C".toList, path, r"checkout".toList, r"-B".toList, branch] then
          [IAct.git [r"-C".toList, path, r"push".toList, r"-u".toList,
            r"origin".toList, branch]]
        else [])) := by
  unfold _submodule_ensure_branch
  rw [andThen_none]
  split_ifs with h1 <;>
    simp_all [andThen_none, andThen_runTrue, runTrue_fst, runFalse]

/-- The trace of `init_submodule` extends the trace of its bind phase. -/
theorem init_submodule_trace_split (cfg : SubdirItem) (w : GitWorld)
    (p0 u0 : Str) (hp : cfg.path = some p0) (hu : cfg.url = some u0) :
    ∃ tail, (init_submodule cfg w).1 =
      (init_submodule_bind (pyStrip p0) (pyLstripCharset ['.', '/'] (pyStrip p0))
        (pyStrip u0) (cfg.branch.getD (r"main".toList)) w).1 ++ tail := by
  unfold init_submodule
  rw [hp, hu]
  rcases hb : init_submodule_bind (pyStrip p0)
    (pyLstripCharset ['.', '/'] (pyStrip p0)) (pyStrip u0)
    (cfg.branch.getD (r"main".toList)) w with ⟨t, e⟩
  simp only [show (r"main".toList : Str) = ['m', 'a', 'i', 'n'] from rfl] at hb
  match e with
  | none =>
      exact ⟨init_submodule_stage (pyLstripCharset ['.', '/'] (pyStrip p0))
        cfg.ignore w, by simp [hb, andThen_none]⟩
  | some PyExc.calledProcessError =>
      exact ⟨[IAct.report Msg.submoduleInitFailed], by simp [hb, andThen_some]⟩
  | some PyExc.keyError => exact ⟨[], by simp [hb, andThen_some]⟩
  | some PyExc.osError => exact ⟨[], by simp [hb, andThen_some]⟩
  | some PyExc.nameError => exact ⟨[], by simp [hb, andThen_some]⟩

/-- The bind phase's full trace when the branch-named bind fails and the
re-bind succeeds. -/
theorem init_submodule_bind_recovery (path_str path url branch : Str) (w : GitWorld)
    (hrepo : w.pathIsRepo = false)
    (hadd1 : w.ok [r"submodule".toList, r"add".toList, r"-f".toList, r"-b".toList,
      branch, url, path] = false)
    (hadd2 : w.ok [r"submodule".toList, r"add".toList, r"-f".toList, url,
      path_str] = true) :
    (init_submodule_bind path_str path url branch w).1 =
      [IAct.mkdirParent path, IAct.report Msg.addingSubmodule,
       IAct.git [r"submodule".toList, r"add".toList, r"-f".toList, r"-b".toList,
         branch, url, path],
       IAct.report Msg.remoteBranchMissing,
       IAct.git [r"submodule".toList, r"deinit".toList, r"-f".toList, path],
       IAct.git [r"rm".toList, r"-f".toList, path],
       IAct.git [r"config".toList, r"--remove-section".toList,
         r"submodule.".toList ++ path]] ++
      (if w.gitmodulesExists then
        [IAct.git [r"config".toList, r"-f".toList, r".gitmodules".toList,
          r"--remove-section".toList, r"submodule.".toList ++ path]]
      else []) ++
      (if w.pathExistsAfterRm then [IAct.rmtreeAct path] else []) ++
      (if w.modulesDirExists then
        [IAct.rmtreeAct (r".git/modules/".toList ++ path)]
      else []) ++
      [IAct.git [r"submodule".toList, r"add".toList, r"-f".toList, url, path_str]] ++
      (_submodule_ensure_branch path branch w).1 := by
  unfold init_submodule_bind
  simp only [hrepo, Bool.false_eq_true, if_false, andThen_none, andThen_runTrue,
    hadd1, hadd2, runFalse, if_true, ite_true]
  simp [List.append_assoc]

/-- C3: when the initial bind naming the requested branch fails, the
reconciler performs, in this order: unregister the partial binding
(`submodule deinit`), remove the path from the host index (`git rm`), strip
the entry's section from the live config and from `.gitmodules` when
present, delete the working tree and its metadata directory when they
exist, re-issue the bind without a branch constraint, and then run the
Bound-state branch resolution (fetch, probe `origin/<branch>`, checkout
tracking it if it exists, otherwise create the branch and push it
upstream). -/
theorem init_submodule_recovery_sequence (cfg : SubdirItem) (w : GitWorld)
    (p0 u0 path_str path url branch : Str)
    (hp : cfg.path = some p0) (hu : cfg.url = some u0)
    (hps : path_str = pyStrip p0)
    (hpa : path = pyLstripCharset ['.', '/'] path_str)
    (hur : url = pyStrip u0)
    (hbr : branch = cfg.branch.getD (r"main".toList))
    (hrepo : w.pathIsRepo = false)
    (hadd1 : w.ok [r"submodule".toList, r"add".toList, r"-f".toList,
      r"-b".toList, branch, url, path] = false)
    (hadd2 : w.ok [r"submodule".toList, r"add".toList, r"-f".toList, url,
      path_str] = true) :
    ∃ tail,
      (init_submodule cfg w).1 =
        [IAct.mkdirParent path, IAct.report Msg.addingSubmodule,
         IAct.git [r"submodule".toList, r"add".toList, r"-f".toList,
           r"-b".toList, branch, url, path],
         IAct.report Msg.remoteBranchMissing,
         IAct.git [r"submodule".toList, r"deinit".toList, r"-f".toList, path],
         IAct.git [r"rm".toList, r"-f".toList, path],
         IAct.git [r"config".toList, r"--remove-section".toList,
           r"submodule.".toList ++ path]] ++
        (if w.gitmodulesExists then
          [IAct.git [r"config".toList, r"-f".toList, r".gitmodules".toList,
            r"--remove-section".toList, r"submodule.".toList ++ path]]
        else []) ++
        (if w.pathExistsAfterRm then [IAct.rmtreeAct path] else []) ++
        (if w.modulesDirExists then
          [IAct.rmtreeAct (r".git/modules/".toList ++ path)]
        else []) ++
        [IAct.git [r"submodule".toList, r"add".toList, r"-f".toList, url,
           path_str],
         IAct.git [r"-C".toList, path, r"fetch".toList, r"origin".toList],
         IAct.git [r"-C".toList, path, r"rev-parse".toList, r"--verify".toList,
           r"origin/".toList ++ branch]] ++
        (if w.ok [r"-C".toList, path, r"rev-parse".toList, r"--verify".toList,
            r"origin/".toList ++ branch] then
          [IAct.git [r"-C".toList, path, r"checkout".toList, r"-B".toList,
            branch, r"origin/".toList ++ branch]]
        else
          [IAct.report Msg.newBranchPushed,
           IAct.git [r"-C".toList, path, r"checkout".toList, r"-B".toList,
             branch]] ++
          (if w.ok [r"-C".toList, path, r"checkout".toList, r"-B".toList,
              branch] then
            [IAct.git [r"-C".toList, path, r"push".toList, r"-u".toList,
              r"origin".toList, branch]]
          else [])) ++ tail := by
  subst hps hpa hur hbr
  obtain ⟨tail, ht⟩ := init_submodule_trace_split cfg w p0 u0 hp hu
  refine ⟨tail, ?_⟩
  rw [ht, init_submodule_bind_recovery _ _ _ _ _ hrepo hadd1 hadd2,
    ensure_branch_trace]
  simp [List.append_assoc]

/-- C3 witness: the recovery sequence of `subEntry` in `recoveryWorld`. -/
theorem init_submodule_recovery_sequence_witness :
    recoveryWorld.pathIsRepo = false
    ∧ recoveryWorld.ok subAdd1Args = false
    ∧ ∃ tail,
      (init_submodule subEntry recoveryWorld).1 =
        [IAct.mkdirParent (r"sub".toList), IAct.report Msg.addingSubmodule,
         IAct.git [r"submodule".toList, r"add".toList, r"-f".toList,
           r"-b".toList, r"main".toList, r"u".toList, r"sub".toList],
         IAct.report Msg.remoteBranchMissing,
         IAct.git [r"submodule".toList, r"deinit".toList, r"-f".toList,
           r"sub".toList],
         IAct.git [r"rm".toList, r"-f".toList, r"sub".toList],
         IAct.git [r"config".toList, r"--remove-section".toList,
           r"submodule.".toList ++ r"sub".toList]] ++
        (if recoveryWorld.gitmodulesExists then
          [IAct.git [r"config".toList, r"-f".toList, r".gitmodules".toList,
            r"--remove-section".toList, r"submodule.".toList ++ r"sub".toList]]
        else []) ++
        (if recoveryWorld.pathExistsAfterRm then
          [IAct.rmtreeAct (r"sub".toList)]
        else []) ++
        (if recoveryWorld.modulesDirExists then
          [IAct.rmtreeAct (r".git/modules/".toList ++ r"sub".toList)]
        else []) ++
        [IAct.git [r"submodule".toList, r"add".toList, r"-f".toList,
           r"u".toList, r"sub".toList],
         IAct.git [r"-C".toList, r"sub".toList, r"fetch".toList,
           r"origin".toList],
         IAct.git [r"-C".toList, r"sub".toList, r"rev-parse".toList,
           r"--verify".toList, r"origin/".toList ++ r"main".toList]] ++
        (if recoveryWorld.ok [r"-C".toList, r"sub".toList, r"rev-parse".toList,
            r"--verify".toList, r"origin/".toList ++ r"main".toList] then
          [IAct.git [r"-C".toList, r"sub".toList, r"checkout".toList,
            r"-B".toList, r"main".toList,
            r"origin/".toList ++ r"main".toList]]
        else
          [IAct.report Msg.newBranchPushed,
           IAct.git [r"-C".toList, r"sub".toList, r"checkout".toList,
             r"-B".toList, r"main".toList]] ++
          (if recoveryWorld.ok [r"-C".toList, r"sub".toList,
              r"checkout".toList, r"-B".toList, r"main".toList] then
            [IAct.git [r"-C".toList, r"sub".toList, r"push".toList,
              r"-u".toList, r"origin".toList, r"main".toList]]
          else [])) ++ tail :=
  ⟨rfl, by decide,
    init_submodule_recovery_sequence subEntry recoveryWorld
      (r"sub".toList) (r"u".toList) (r"sub".toList) (r"sub".toList)
      (r"u".toList) (r"main".toList)
      rfl rfl (by decide) (by decide) (by decide) (by decide) rfl
      (by decide) (by decide)⟩


/-- C1 (the code evaluated at the failing input): in a run where every git
command succeeds — so the configured remote is reachable — the reconciler
stages everything host-wide and reaches the commit step, but then raises
`NameError`: line 362 of init.py calls `pull_main_repo`, which is defined
nowhere in the repository, so the push of lines 363-376 is unreachable and
the run never completes normally. -/
theorem init_main_push_unreachable :
    allOkWorld.ok [r"remote".toList, r"get-url".toList, r"origin".toList] = true
    ∧ IAct.git [r"add".toList, r"-A".toList] ∈
        (initMain pushCfg allOkWorld (fun _ => allOkWorld)).1
    ∧ IAct.git [r"diff".toList, r"--cached".toList, r"--quiet".toList] ∈
        (initMain pushCfg allOkWorld (fun _ => allOkWorld)).1
    ∧ (initMain pushCfg allOkWorld (fun _ => allOkWorld)).2 =
        some PyExc.nameError
    ∧ ((initMain pushCfg allOkWorld (fun _ => allOkWorld)).1.all
        (fun a => !mentionsPush a)) = true := by
  decide

theorem runTrue_snd (w : GitWorld) (args : List Str) :
    (runTrue w args).2 =
      if w.ok args then none else some PyExc.calledProcessError := by
  unfold runTrue; split <;> simp_all

theorem ensure_branch_exc (path branch : Str) (w : GitWorld) :
    (_submodule_ensure_branch path branch w).2 = none ∨
      (_submodule_ensure_branch path branch w).2 =
        some PyExc.calledProcessError := by
  unfold _submodule_ensure_branch
  rw [andThen_none]
  split_ifs with h1 <;>
    simp [andThen_none, andThen_runTrue, runTrue_snd] <;>
    split_ifs <;> simp

theorem bind_exc (path_str path url branch : Str) (w : GitWorld) :
    (init_submodule_bind path_str path url branch w).2 = none ∨
      (init_submodule_bind path_str path url branch w).2 =
        some PyExc.calledProcessError := by
  unfold init_submodule_bind
  by_cases h1 : w.pathIsRepo = true
  · rw [if_pos h1]
    exact ensure_branch_exc _ _ _
  · rw [if_neg h1, andThen_none]
    by_cases h2 : w.ok [r"submodule".toList, r"add".toList, r"-f".toList,
      r"-b".toList, branch, url, path] = true
    · simp only [h2, if_true]
      simp
    · simp only [h2, Bool.false_eq_true, if_false, andThen_none, andThen_runTrue]
      by_cases h3 : w.ok [r"submodule".toList, r"add".toList, r"-f".toList,
        url, path_str] = true
      · simp only [h3, if_true]
        rcases ensure_branch_exc path branch w with h | h <;> simp [h]
      · simp only [h3, Bool.false_eq_true, if_false]
        simp

theorem init_submodule_none (cfg : SubdirItem) (w : GitWorld)
    (p0 u0 : Str) (hp : cfg.path = some p0) (hu : cfg.url = some u0) :
    (init_submodule cfg w).2 = none := by
  unfold init_submodule
  rw [hp, hu]
  rcases bind_exc (pyStrip p0) (pyLstripCharset ['.', '/'] (pyStrip p0))
      (pyStrip u0) (cfg.branch.getD (r"main".toList)) w with h | h <;>
    simp only [show (r"main".toList : Str) = ['m', 'a', 'i', 'n'] from rfl] at h <;>
    rcases hb : init_submodule_bind (pyStrip p0)
      (pyLstripCharset ['.', '/'] (pyStrip p0)) (pyStrip u0)
      (cfg.branch.getD ['m', 'a', 'i', 'n']) w with ⟨t, e⟩ <;>
    rw [hb] at h <;> simp at h <;> subst h <;>
    simp [andThen_none, andThen_some, hb]

theorem init_symlink_none (cfg : SubdirItem) (w : GitWorld)
    (p0 u0 : Str) (hp : cfg.path = some p0) (hu : cfg.url = some u0)
    (hsafe : w.linkPathExists || !w.symlinkRaises) :
    (init_symlink cfg w).2 = none := by
  unfold init_symlink
  rw [hp, hu]
  by_cases h1 : w.linkPathExists = true
  · simp only [h1, if_true]
    split <;> rfl
  · simp only [h1, Bool.false_eq_true, if_false]
    have h2 : w.symlinkRaises = false := by
      rcases Bool.or_eq_true_iff.mp hsafe with h | h
      · exact absurd h h1
      · simpa using h
    simp [h2]

theorem getD_some_of_ne_empty (o : Option Str) (h : ¬(o.getD []).isEmpty = true) :
    o = some (o.getD []) := by
  cases o with
  | none => simp at h
  | some v => rfl

theorem initProcessItem_none (item : SubdirItem) (w : GitWorld)
    (h : entryIsolated item w = true) :
    (initProcessItem item w).2 = none := by
  unfold entryIsolated at h
  unfold initProcessItem
  dsimp only [] at h ⊢
  by_cases hg : (List.isEmpty (item.name.getD []) ||
      List.isEmpty (item.path.getD [])) = true
  · rw [if_pos hg]
  · rw [if_neg hg]
    have hg2 := hg
    simp only [Bool.or_eq_true, not_or, Bool.not_eq_true] at hg2
    have hpth : item.path = some (item.path.getD []) :=
      getD_some_of_ne_empty _ (by simp [hg2.2])
    simp only [hg2.1, hg2.2, Bool.false_or] at h
    by_cases ht : pyLower (pyStrip (pyOr item.type (r"gitsubmodule".toList))) =
        r"gitsubmodule".toList
    · rw [if_pos ht] at h ⊢
      rcases Option.isSome_iff_exists.mp h with ⟨u, hu⟩
      exact init_submodule_none item w _ u hpth hu
    · rw [if_neg ht] at h ⊢
      by_cases ht2 : pyLower (pyStrip (pyOr item.type (r"gitsubmodule".toList))) =
          r"ln".toList
      · rw [if_pos ht2] at h ⊢
        rcases (Bool.and_eq_true _ _).mp h with ⟨hu, hsafe⟩
        rcases Option.isSome_iff_exists.mp hu with ⟨u, hu2⟩
        exact init_symlink_none item w _ u hpth hu2 hsafe
      · rw [if_neg ht2]

theorem initLoop_isolated (w : Nat → GitWorld) :
    ∀ (items : List SubdirItem) (i : Nat),
      (∀ j (hj : j < items.length), entryIsolated items[j] (w (i + j)) = true) →
      initLoop w items i = (initLoopFull w items i, none) := by
  intro items
  induction items with
  | nil => intro i h; rfl
  | cons item rest ih =>
      intro i h
      have h0 : entryIsolated item (w i) = true := by
        simpa using h 0 (by simp)
      have hrec := ih (i + 1) (fun j hj => by
        have := h (j + 1) (by simpa using Nat.succ_lt_succ hj)
        simpa [Nat.add_assoc, Nat.add_comm 1 j] using this)
      have hexc := initProcessItem_none item (w i) h0
      unfold initLoop initLoopFull
      rcases hp : initProcessItem item (w i) with ⟨t, e⟩
      rw [hp] at hexc
      simp only at hexc
      subst hexc
      simp [hrec]

theorem apply_subdir_none (item : SubdirItem) (le : Option Str) (w : CopyWorld)
    (p0 : Str) (hp : item.path = some p0) :
    (apply_subdir item le w).2 = none := by
  unfold apply_subdir
  rw [hp]
  dsimp only []
  split_ifs <;> rfl

theorem copyLoop_isolated (le : Option Str) (cw : Nat → CopyWorld) :
    ∀ (items : List SubdirItem) (i : Nat),
      (∀ j (hj : j < items.length), (items[j]).path.isSome = true) →
      copyLoop le cw items i = (copyLoopFull le cw items i, none) := by
  intro items
  induction items with
  | nil => intro i h; rfl
  | cons item rest ih =>
      intro i h
      have h0 : item.path.isSome = true := by
        simpa using h 0 (by simp)
      have hrec := ih (i + 1) (fun j hj => by
        simpa using h (j + 1) (by simpa using Nat.succ_lt_succ hj))
      rcases Option.isSome_iff_exists.mp h0 with ⟨p0, hp⟩
      have hexc := apply_subdir_none item le (cw i) p0 hp
      unfold copyLoop copyLoopFull
      rcases hq : apply_subdir item le (cw i) with ⟨t, e⟩
      rw [hq] at hexc
      simp only at hexc
      subst hexc
      simp [hrec]

/-- C2 counterexample: a SymbolicLink entry without a `url` key raises
`KeyError`, which escapes the entry and stops the loop, so the following
NestedRepo entry — which on its own would produce actions — is never
processed. -/
theorem entry_failure_escapes :
    (initLoop (fun _ => allOkWorld) [lnNoUrl, subEntry] 0).2 =
      some PyExc.keyError
    ∧ (initLoop (fun _ => allOkWorld) [lnNoUrl, subEntry] 0).1 = []
    ∧ (initProcessItem subEntry allOkWorld).1 ≠ [] := by
  decide

/-- C2 (amended): exceptions the code anticipates stay inside the entry —
in the reconciler no exception escapes a skipped entry, an unknown-type
entry, a NestedRepo entry with a `url` (git failures are caught), or a
SymbolicLink entry with a `url` whose link already exists or whose
`os.symlink` does not raise; in the projector no exception escapes an entry
with a `path` key.  Under those conditions both loops run every entry and
produce the full concatenated trace. -/
theorem entry_failure_isolation (w : Nat → GitWorld) (cw : Nat → CopyWorld)
    (le : Option Str) (items : List SubdirItem) (i : Nat)
    (hrec : ∀ j (hj : j < items.length),
      entryIsolated items[j] (w (i + j)) = true)
    (hproj : ∀ j (hj : j < items.length), (items[j]).path.isSome = true) :
    initLoop w items i = (initLoopFull w items i, none)
    ∧ copyLoop le cw items i = (copyLoopFull le cw items i, none) :=
  ⟨initLoop_isolated w items i hrec, copyLoop_isolated le cw items i hproj⟩

/-- C2 witness: a NestedRepo entry with url present is processed without an
escaping exception by both loops. -/
theorem entry_failure_isolation_witness :
    (∀ j (hj : j < ([subEntry] : List SubdirItem).length),
      entryIsolated ([subEntry] : List SubdirItem)[j]
        ((fun _ => allOkWorld) (0 + j)) = true)
    ∧ initLoop (fun _ => allOkWorld) [subEntry] 0 =
        (initLoopFull (fun _ => allOkWorld) [subEntry] 0, none)
    ∧ copyLoop none (fun _ => fileWorld) [subEntry] 0 =
        (copyLoopFull none (fun _ => fileWorld) [subEntry] 0, none) :=
  ⟨by decide,
    (entry_failure_isolation (fun _ => allOkWorld) (fun _ => fileWorld) none
      [subEntry] 0 (by decide) (by decide)).1,
    (entry_failure_isolation (fun _ => allOkWorld) (fun _ => fileWorld) none
      [subEntry] 0 (by decide) (by decide)).2⟩


/-- C8 counterexample: an entry with an unknown type is reported and
skipped by the reconciler, but the projector still projects it — its main
loop never looks at the type field, so the entry's file is copied. -/
theorem unknown_type_projected :
    (initProcessItem bogusEntry allOkWorld).1 = [IAct.report Msg.unknownType]
    ∧ CAct.copyBytes [r"x".toList] [97] ∈
        (apply_subdir bogusEntry none fileWorld).1 := by
  decide

/-- C8 (amended): an entry whose resolved type is neither `gitsubmodule`
nor `ln` is reported and skipped entirely by the reconciler; the projector
ignores the type field — its projection of any entry is unchanged under any
replacement of that field — and so projects unknown-type entries like any
other. -/
theorem unknown_type_skipped_only_by_reconciler :
    (∀ (item : SubdirItem) (w : GitWorld),
      ¬(item.name.getD []).isEmpty = true →
      ¬(item.path.getD []).isEmpty = true →
      pyLower (pyStrip (pyOr item.type (r"gitsubmodule".toList))) ≠
        r"gitsubmodule".toList →
      pyLower (pyStrip (pyOr item.type (r"gitsubmodule".toList))) ≠
        r"ln".toList →
      initProcessItem item w = ([IAct.report Msg.unknownType], none))
    ∧ (∀ (item : SubdirItem) (t : Option Str) (le : Option Str) (cw : CopyWorld),
        apply_subdir { item with type := t } le cw = apply_subdir item le cw) := by
  constructor
  · intro item w hn hp ht1 ht2
    unfold initProcessItem
    dsimp only []
    rw [if_neg (by simp [hn, hp] : ¬(List.isEmpty (item.name.getD []) ||
      List.isEmpty (item.path.getD [])) = true)]
    rw [if_neg ht1, if_neg ht2]
  · intro item t le cw
    rfl

/-- C10 counterexample: an entry with a non-empty path and no name field
is skipped by the reconciler (the same entry with a name produces actions),
while the projector processes it under the path's last segment. -/
theorem missing_name_reconciler_skips :
    initProcessItem noNameEntry allOkWorld = ([], none)
    ∧ (initProcessItem { noNameEntry with name := some (r"dir".toList) }
        allOkWorld).1 ≠ []
    ∧ CAct.copyBytes [r"dir".toList] [97] ∈
        (apply_subdir noNameEntry none fileWorld).1 := by
  decide

/-- C10 (amended): for an entry with a path and no name field, the
projector behaves exactly as if the name were the last segment of the
cleaned path — that is the destination name used — but the reconciler skips
the entry entirely instead of processing it under a defaulted name. -/
theorem name_default_projector_only (item : SubdirItem) (le : Option Str)
    (cw : CopyWorld) (w : GitWorld) (p0 : Str)
    (hp : item.path = some p0) (hn : item.name = none) :
    apply_subdir item le cw =
      apply_subdir { item with name := some (posixName (pyLstripCharset ['.', '/'] (pyStrip p0))) } le cw
    ∧ initProcessItem item w = ([], none) := by
  constructor
  · unfold apply_subdir
    simp [hp, hn]
  · unfold initProcessItem
    simp [hn]

/-- C7 counterexample: a projector run whose target exists and is
non-empty, with backups not suppressed, performs no snapshot at all when no
backup folder is configured — refuting the claim as stated. -/
theorem backup_skipped_without_folder :
    (copyMain pushCfg false true (r"20250101_000000".toList)
      (fun _ => fileWorld)).1 = [CAct.mkdirP []]
    ∧ ((copyMain pushCfg false true (r"20250101_000000".toList)
        (fun _ => fileWorld)).1.all (fun a => !isSnapshotAct a)) = true := by
  decide

/-- C7 (amended): when the target root has content, backups are not
suppressed **and a backup folder is configured**, the run snapshots the
entire pre-run target tree (a metadata-preserving `shutil.copytree`) into
`backupFolder/<stamp>` before the target root is even created, hence before
any destination mutation: the snapshot actions form the trace's prefix. -/
theorem backup_before_mutation (cfg : Config) (no_backup : Bool) (stamp : Str)
    (w : Nat → CopyWorld) (bp : Str)
    (hb : bp = pyLstripCharset ['.', '/'] (pyStrip (cfg.init.backupFolder.getD [])))
    (hbp : bp.isEmpty = false) (hnb : no_backup = false) :
    (copyMain cfg no_backup true stamp w).1 =
      [CAct.backupMkdir bp, CAct.copytreeAct bp stamp,
        CAct.report Msg.backupDone] ++
      CAct.mkdirP [] ::
        (copyLoop (lineEndingsGet (pyUpper (pyStrip
          (pyOr cfg.init.lineSplitter (r"NONE".toList))))) w cfg.subdir 0).1 := by
  subst hb hnb
  unfold copyMain backup_target
  simp [hbp]

/-- C8 witness: the amended theorem applied to a concrete unknown-type
entry and to a concrete type replacement. -/
theorem unknown_type_skipped_only_by_reconciler_witness :
    initProcessItem bogusEntry allOkWorld = ([IAct.report Msg.unknownType], none)
    ∧ apply_subdir { subEntry with type := some (r"bogus".toList) } none
        fileWorld = apply_subdir subEntry none fileWorld :=
  ⟨unknown_type_skipped_only_by_reconciler.1 bogusEntry allOkWorld (by decide)
      (by decide) (by decide) (by decide),
    unknown_type_skipped_only_by_reconciler.2 subEntry (some (r"bogus".toList))
      none fileWorld⟩

/-- C10 witness: the amended theorem applied to `noNameEntry`. -/
theorem name_default_projector_only_witness :
    noNameEntry.name = none
    ∧ apply_subdir noNameEntry none fileWorld =
        apply_subdir { noNameEntry with name := some (posixName (pyLstripCharset ['.', '/'] (pyStrip (r"sub/dir".toList)))) } none fileWorld
    ∧ initProcessItem noNameEntry allOkWorld = ([], none) :=
  ⟨rfl,
    (name_default_projector_only noNameEntry none fileWorld allOkWorld
      (r"sub/dir".toList) rfl rfl).1,
    (name_default_projector_only noNameEntry none fileWorld allOkWorld
      (r"sub/dir".toList) rfl rfl).2⟩

/-- C7 witness: the amended theorem applied to a configuration whose
backup folder is `./bk`. -/
theorem backup_before_mutation_witness :
    (pyLstripCharset ['.', '/']
      (pyStrip (bkCfg.init.backupFolder.getD []))).isEmpty = false
    ∧ (copyMain bkCfg false true (r"20250101_000000".toList)
        (fun _ => fileWorld)).1 =
      [CAct.backupMkdir (r"bk".toList),
        CAct.copytreeAct (r"bk".toList) (r"20250101_000000".toList),
        CAct.report Msg.backupDone] ++
      CAct.mkdirP [] ::
        (copyLoop (lineEndingsGet (pyUpper (pyStrip
          (pyOr bkCfg.init.lineSplitter (r"NONE".toList)))))
          (fun _ => fileWorld) bkCfg.subdir 0).1 :=
  ⟨by decide,
    backup_before_mutation bkCfg false (r"20250101_000000".toList)
      (fun _ => fileWorld) (r"bk".toList) (by decide) (by decide) rfl⟩

theorem copyChildren_nil (dst ig : List Str) (le : Option Str)
    (syms : List Str) (pfx : Str) :
    copyChildren FsForest.nil dst ig le syms pfx = [] := by
  rw [copyChildren.eq_def]

theorem copyChildren_cons (name : Str) (t : FsTree) (rest : FsForest)
    (dst ig : List Str) (le : Option Str) (syms : List Str) (pfx : Str) :
    copyChildren (FsForest.cons name t rest) dst ig le syms pfx =
      (if should_ignore name ig ||
          syms.contains (if pfx.isEmpty then name else pfx ++ '/' :: name) then
        []
      else
        match t with
        | .dir ch =>
            copy_tree ch (dst ++ [name]) ig le syms
              (if pfx.isEmpty then name else pfx ++ '/' :: name)
        | .file data =>
            [CAct.copyBytes (dst ++ [name]) (copy_with_line_ending data le)]) ++
        copyChildren rest dst ig le syms pfx := by
  rw [copyChildren.eq_def]

theorem findFile_file_nil (data : List Nat) :
    findFile (FsTree.file data) [] = some data := by
  rw [findFile.eq_def]

theorem findFile_file_cons (data : List Nat) (seg : Str) (segs : List Str) :
    findFile (FsTree.file data) (seg :: segs) = none := by
  rw [findFile.eq_def]

theorem findFile_dir_nil (f : FsForest) :
    findFile (FsTree.dir f) [] = none := by
  rw [findFile.eq_def]

theorem findFile_dir_cons (f : FsForest) (seg : Str) (segs : List Str) :
    findFile (FsTree.dir f) (seg :: segs) = findInForest f seg segs := by
  rw [findFile.eq_def]

theorem findInForest_nil (seg : Str) (segs : List Str) :
    findInForest FsForest.nil seg segs = none := by
  rw [findInForest.eq_def]

theorem findInForest_cons (name : Str) (t : FsTree) (rest : FsForest)
    (seg : Str) (segs : List Str) :
    findInForest (FsForest.cons name t rest) seg segs =
      if name = seg then findFile t segs else findInForest rest seg segs := by
  rw [findInForest.eq_def]

theorem chainAllowed_nil (ig syms : List Str) (pfx : Str) :
    chainAllowed ig syms pfx [] = true := rfl

theorem chainAllowed_cons (ig syms : List Str) (pfx name : Str)
    (segs : List Str) :
    chainAllowed ig syms pfx (name :: segs) =
      (!(should_ignore name ig ||
          syms.contains (if pfx.isEmpty then name else pfx ++ '/' :: name)) &&
        chainAllowed ig syms
          (if pfx.isEmpty then name else pfx ++ '/' :: name) segs) := rfl

theorem findInForest_mem_names : ∀ (f : FsForest) (seg : Str) (segs : List Str)
    (data : List Nat), findInForest f seg segs = some data →
    seg ∈ forestNames f
  | .nil, seg, segs, data => by
      intro h
      rw [findInForest_nil] at h
      exact absurd h (by simp)
  | .cons name t rest, seg, segs, data => by
      intro h
      rw [findInForest_cons] at h
      by_cases he : name = seg
      · simp [forestNames, he]
      · rw [if_neg he] at h
        exact List.mem_cons_of_mem _ (findInForest_mem_names rest seg segs data h)

theorem mem_copy_tree_iff : ∀ (f : FsForest) (dst ig : List Str)
    (le : Option Str) (syms : List Str) (pfx : Str) (q : List Str) (c : List Nat),
    forestWF f = true →
    (CAct.copyBytes q c ∈ copy_tree f dst ig le syms pfx ↔
      ∃ segs, q = dst ++ segs ∧ segs ≠ [] ∧
        chainAllowed ig syms pfx segs = true ∧
        ∃ data, findFile (FsTree.dir f) segs = some data ∧
          c = copy_with_line_ending data le)
  | .nil, dst, ig, le, syms, pfx, q, c => by
      intro hwf
      constructor
      · intro hm
        rw [copy_tree, copyChildren_nil] at hm
        simp at hm
      · rintro ⟨segs, hq, hne, hchain, data, hfind, hc⟩
        rcases segs with _ | ⟨seg, segs'⟩
        · exact absurd rfl hne
        · rw [findFile_dir_cons, findInForest_nil] at hfind
          exact absurd hfind (by simp)
  | .cons name t rest, dst, ig, le, syms, pfx, q, c => by
      intro hwf
      unfold forestWF at hwf
      rw [Bool.and_eq_true, Bool.and_eq_true] at hwf
      obtain ⟨⟨hname, htwf⟩, hrwf⟩ := hwf
      have hname' : name ∉ forestNames rest := by simpa using hname
      have hrest := mem_copy_tree_iff rest dst ig le syms pfx q c hrwf
      constructor
      · intro hm
        rw [copy_tree] at hm
        rcases List.mem_cons.mp hm with hm0 | hm1
        · exact absurd hm0 (by simp)
        · rw [copyChildren_cons] at hm1
          rcases List.mem_append.mp hm1 with hmb | hmr
          · by_cases hskip : (should_ignore name ig ||
                syms.contains (if pfx.isEmpty then name
                  else pfx ++ '/' :: name)) = true
            · rw [if_pos hskip] at hmb
              simp at hmb
            · rw [if_neg hskip] at hmb
              rcases t with data | ch
              · simp only [List.mem_singleton] at hmb
                obtain ⟨hq2, hc2⟩ : q = dst ++ [name] ∧
                    c = copy_with_line_ending data le := by
                  cases hmb; exact ⟨rfl, rfl⟩
                refine ⟨[name], hq2, by simp, ?_, data, ?_, hc2⟩
                · rw [chainAllowed_cons, chainAllowed_nil, Bool.and_true,
                    Bool.not_eq_true', Bool.not_eq_true] at *
                  exact Bool.not_eq_true _ ▸ (by simpa using hskip)
                · rw [findFile_dir_cons, findInForest_cons, if_pos rfl,
                    findFile_file_nil]
              · have hch := (mem_copy_tree_iff ch (dst ++ [name]) ig le syms
                  (if pfx.isEmpty then name else pfx ++ '/' :: name) q c
                  (by simpa [treeWF] using htwf)).mp hmb
                obtain ⟨segs', hq2, hne', hchain', data, hfind', hc'⟩ := hch
                refine ⟨name :: segs', by simp [hq2], by simp, ?_, data, ?_, hc'⟩
                · rw [chainAllowed_cons, Bool.and_eq_true]
                  exact ⟨by simpa using hskip, hchain'⟩
                · rw [findFile_dir_cons, findInForest_cons, if_pos rfl]
                  exact hfind'
          · have hmr2 : CAct.copyBytes q c ∈ copy_tree rest dst ig le syms pfx := by
              rw [copy_tree]
              exact List.mem_cons_of_mem _ hmr
            obtain ⟨segs, hq2, hne', hchain', data, hfind', hc'⟩ := hrest.mp hmr2
            rcases segs with _ | ⟨seg, segs'⟩
            · exact absurd rfl hne'
            · rw [findFile_dir_cons] at hfind'
              have hsegmem : seg ∈ forestNames rest :=
                findInForest_mem_names rest seg segs' data hfind'
              have hne2 : name ≠ seg := by
                intro he
                subst he
                exact hname' hsegmem
              refine ⟨seg :: segs', hq2, by simp, hchain', data, ?_, hc'⟩
              rw [findFile_dir_cons, findInForest_cons, if_neg hne2]
              exact hfind'
      · rintro ⟨segs, hq, hne, hchain, data, hfind, hc⟩
        rcases segs with _ | ⟨seg, segs'⟩
        · exact absurd rfl hne
        · rw [findFile_dir_cons, findInForest_cons] at hfind
          rw [copy_tree, List.mem_cons]
          right
          rw [copyChildren_cons, List.mem_append]
          rw [chainAllowed_cons, Bool.and_eq_true] at hchain
          obtain ⟨hskip, hchain'⟩ := hchain
          by_cases he : name = seg
          · subst he
            rw [if_pos rfl] at hfind
            left
            rw [if_neg (by simpa using hskip)]
            rcases t with data' | ch
            · rcases segs' with _ | ⟨s2, ss⟩
              · rw [findFile_file_nil] at hfind
                obtain rfl : data' = data := by simpa using hfind
                subst hc
                simp [hq]
              · rw [findFile_file_cons] at hfind
                exact absurd hfind (by simp)
            · refine (mem_copy_tree_iff ch (dst ++ [name]) ig le syms
                (if pfx.isEmpty then name else pfx ++ '/' :: name) q c
                (by simpa [treeWF] using htwf)).mpr ?_
              refine ⟨segs', by simp [hq], ?_, hchain', data, hfind, hc⟩
              rintro rfl
              rw [findFile_dir_nil] at hfind
              exact absurd hfind (by simp)
          · rw [if_neg he] at hfind
            have hmem : CAct.copyBytes q c ∈ copy_tree rest dst ig le syms pfx := by
              refine hrest.mpr ⟨seg :: segs', hq, by simp, ?_, data, ?_, hc⟩
              · rw [chainAllowed_cons, Bool.and_eq_true]
                exact ⟨hskip, hchain'⟩
              · rw [findFile_dir_cons]
                exact hfind
            rw [copy_tree] at hmem
            rcases List.mem_cons.mp hmem with h0 | h1
            · exact absurd h0 (by simp)
            · exact Or.inr h1
termination_by f _ _ _ _ _ _ _ => sizeOf f

theorem chainAllowed_not_ignored : ∀ (segs ig syms : List Str) (pfx : Str),
    chainAllowed ig syms pfx segs = true →
    ∀ name ∈ segs, should_ignore name ig = false
  | [], _, _, _ => by
      intro h name hn
      simp at hn
  | name :: segs, ig, syms, pfx => by
      intro h n hn
      rw [chainAllowed_cons, Bool.and_eq_true] at h
      rcases List.mem_cons.mp hn with rfl | hn2
      · have h1 := h.1
        simp only [Bool.not_eq_true', Bool.or_eq_false_iff] at h1
        exact h1.1
      · exact chainAllowed_not_ignored segs ig syms _ h.2 n hn2

/-- C6: projection of a directory tree copies exactly the files whose whole
name chain passes the per-level test: no component name matches an ignore
pattern (tested against the bare name and against the wildcard-prefixed
name, as `should_ignore` does) and no relative path along the chain is a
symlink entry; the written content is the source bytes through the
line-ending policy.  In particular, with `*.tmp` among the patterns, no
file whose chain contains a `*.tmp`-matching component is copied at any
depth, while non-matching siblings are retained (the iff's converse). -/
theorem copy_tree_ignore_exclusion (f : FsForest) (hwf : forestWF f = true)
    (ig syms dst : List Str) (le : Option Str) (segs : List Str) (c : List Nat) :
    (CAct.copyBytes (dst ++ segs) c ∈ copy_tree f dst ig le syms [] ↔
      (segs ≠ [] ∧ chainAllowed ig syms [] segs = true ∧
        ∃ data, findFile (FsTree.dir f) segs = some data ∧
          c = copy_with_line_ending data le))
    ∧ ((r"*.tmp".toList) ∈ ig →
        (∃ name ∈ segs, fnmatch name (r"*.tmp".toList) = true) →
        CAct.copyBytes (dst ++ segs) c ∉ copy_tree f dst ig le syms []) := by
  have hiff := mem_copy_tree_iff f dst ig le syms [] (dst ++ segs) c hwf
  have hmain : CAct.copyBytes (dst ++ segs) c ∈ copy_tree f dst ig le syms [] ↔
      (segs ≠ [] ∧ chainAllowed ig syms [] segs = true ∧
        ∃ data, findFile (FsTree.dir f) segs = some data ∧
          c = copy_with_line_ending data le) := by
    rw [hiff]
    constructor
    · rintro ⟨segs2, hq, hne, hchain, hdata⟩
      obtain rfl : segs2 = segs := (List.append_cancel_left hq).symm
      exact ⟨hne, hchain, hdata⟩
    · rintro ⟨hne, hchain, hdata⟩
      exact ⟨segs, rfl, hne, hchain, hdata⟩
  refine ⟨hmain, ?_⟩
  rintro hpat ⟨name, hmem, hmatch⟩ hin
  obtain ⟨hne, hchain, _⟩ := hmain.mp hin
  have hni := chainAllowed_not_ignored segs ig syms [] hchain name hmem
  have : should_ignore name ig = true := by
    unfold should_ignore
    rw [List.any_eq_true]
    refine ⟨_, hpat, ?_⟩
    rw [Bool.or_eq_true]
    exact Or.inl hmatch
  simp [this] at hni

/-- C6 witness: with pattern `*.tmp`, `b.txt` is copied while `a.tmp` and
the nested `sub/c.tmp` are not. -/
theorem copy_tree_ignore_exclusion_witness :
    forestWF demoForest = true
    ∧ CAct.copyBytes ([r"d".toList] ++ [r"b.txt".toList]) [98] ∈
        copy_tree demoForest [r"d".toList] [r"*.tmp".toList] none [] []
    ∧ CAct.copyBytes ([r"d".toList] ++ [r"a.tmp".toList]) [97] ∉
        copy_tree demoForest [r"d".toList] [r"*.tmp".toList] none [] []
    ∧ CAct.copyBytes ([r"d".toList] ++ [r"sub".toList, r"c.tmp".toList]) [99] ∉
        copy_tree demoForest [r"d".toList] [r"*.tmp".toList] none [] [] :=
  ⟨by decide,
    (copy_tree_ignore_exclusion demoForest (by decide) [r"*.tmp".toList] []
      [r"d".toList] none [r"b.txt".toList] [98]).1.mpr
      ⟨by decide, by decide, [98], by decide, by decide⟩,
    (copy_tree_ignore_exclusion demoForest (by decide) [r"*.tmp".toList] []
      [r"d".toList] none [r"a.tmp".toList] [97]).2 (by decide) (by decide),
    (copy_tree_ignore_exclusion demoForest (by decide) [r"*.tmp".toList] []
      [r"d".toList] none [r"sub".toList, r"c.tmp".toList] [99]).2 (by decide)
      (by decide)⟩

theorem concatMap_append {α β : Type} (f : α → List β) :
    ∀ (l1 l2 : List α),
      concatMap f (l1 ++ l2) = concatMap f l1 ++ concatMap f l2
  | [], l2 => rfl
  | x :: l1, l2 => by
      show f x ++ concatMap f (l1 ++ l2) = f x ++ concatMap f l1 ++ concatMap f l2
      rw [concatMap_append f l1 l2, List.append_assoc]

theorem mem_concatMap {α β : Type} (f : α → List β) (a : β) :
    ∀ (l : List α), a ∈ concatMap f l ↔ ∃ x ∈ l, a ∈ f x
  | [] => by simp [concatMap]
  | x :: l => by
      simp only [concatMap, List.mem_append, mem_concatMap f a l,
        List.mem_cons]
      constructor
      · rintro (h | ⟨y, hy, hh⟩)
        · exact ⟨x, Or.inl rfl, h⟩
        · exact ⟨y, Or.inr hy, hh⟩
      · rintro ⟨y, rfl | hy, hh⟩
        · exact Or.inl hh
        · exact Or.inr ⟨y, hy, hh⟩

theorem copyBytes_not_mem_applySymlinkEntry (pathRel : Str) (dest : List Str)
    (w : CopyWorld) (rel : Str) (q : List Str) (c : List Nat) :
    CAct.copyBytes q c ∉ applySymlinkEntry pathRel dest w rel := by
  unfold applySymlinkEntry
  dsimp only []
  split_ifs <;> simp

theorem chainAllowed_rel_not_listed : ∀ (segs : List Str) (ig syms : List Str)
    (pfx : Str), chainAllowed ig syms pfx segs = true →
    ∀ k, 1 ≤ k → k ≤ segs.length → relOfChain pfx (segs.take k) ∉ syms
  | [], ig, syms, pfx => by
      intro h k h1 h2
      simp at h2
      omega
  | name :: segs, ig, syms, pfx => by
      intro h k h1 h2
      rw [chainAllowed_cons, Bool.and_eq_true] at h
      obtain ⟨hskip, hrest⟩ := h
      have hrel : (if pfx.isEmpty then name else pfx ++ '/' :: name) ∉ syms := by
        simp only [Bool.not_eq_true', Bool.or_eq_false_iff] at hskip
        simpa using hskip.2
      match k, h1 with
      | 1, _ =>
          simpa [relOfChain] using hrel
      | (k' + 2), _ =>
          have hk : k' + 1 ≤ segs.length := by
            simpa using h2
          have := chainAllowed_rel_not_listed segs ig syms
            (if pfx.isEmpty then name else pfx ++ '/' :: name) hrest
            (k' + 1) (by omega) hk
          simpa [relOfChain] using this

theorem apply_subdir_dir_trace (item : SubdirItem) (le : Option Str)
    (w : CopyWorld) (p0 : Str) (hp : item.path = some p0)
    (hex : w.pathExists = true) (hdir : w.pathIsFile = false) :
    apply_subdir item le w =
      (copy_tree w.tree
          (segsOf (item.name.getD
            (posixName (pyLstripCharset ['.', '/'] (pyStrip p0)))))
          item.ignore le (normSymlinks item) [] ++
        concatMap
          (applySymlinkEntry (pyLstripCharset ['.', '/'] (pyStrip p0))
            (segsOf (item.name.getD
              (posixName (pyLstripCharset ['.', '/'] (pyStrip p0))))) w)
          (normSymlinks item), none) := by
  unfold apply_subdir
  rw [hp]
  dsimp only []
  rw [if_neg (by simp [hex]), if_neg (by simp [hdir])]
  cases hn : item.name with
  | none => rfl
  | some n => rfl

/-- C4: for a directory-shaped entry and every normalized `symlinkTargets`
item `r`: `r` is excluded from the recursive copy — no copied file's name
chain passes through the relative path `r` — and, after the copy, when the
resolved source exists the destination entry is removed if present and a
symbolic link pointing at the absolute resolved source is created there
(never a copied file); when the source is missing a warning is reported,
the item is skipped, and in every case the call raises nothing. -/
theorem symlink_substitution (item : SubdirItem) (le : Option Str)
    (w : CopyWorld) (p0 pathRel : Str) (dest : List Str) (r : Str)
    (hp : item.path = some p0)
    (hpr : pathRel = pyLstripCharset ['.', '/'] (pyStrip p0))
    (hdest : dest = segsOf (item.name.getD (posixName pathRel)))
    (hex : w.pathExists = true) (hdir : w.pathIsFile = false)
    (hwf : forestWF w.tree = true)
    (hr : r ∈ normSymlinks item) :
    (apply_subdir item le w).2 = none
    ∧ (∀ segs c, CAct.copyBytes (dest ++ segs) c ∈ (apply_subdir item le w).1 →
        ∀ k, 1 ≤ k → k ≤ segs.length → relOfChain [] (segs.take k) ≠ r)
    ∧ (w.srcItemExists (pyJoin pathRel r) = false →
        CAct.report Msg.symlinkSrcMissing ∈ (apply_subdir item le w).1)
    ∧ (w.srcItemExists (pyJoin pathRel r) = true →
        w.symlinkFails (dest ++ segsOf r) = false →
        ∃ pre post, (apply_subdir item le w).1 =
          pre ++
            ((if w.dstExists (dest ++ segsOf r) then
                [CAct.unlinkAct (dest ++ segsOf r)]
              else []) ++
              CAct.mkdirP (dest ++ segsOf r).dropLast ::
                [CAct.symlinkTo (dest ++ segsOf r)
                  (w.resolveSrc (pyJoin pathRel r))]) ++ post) := by
  subst hpr hdest
  have htr := apply_subdir_dir_trace item le w p0 hp hex hdir
  refine ⟨by rw [htr], ?_, ?_, ?_⟩
  · intro segsA c hm k hk1 hk2
    rw [htr] at hm
    rcases List.mem_append.mp hm with hct | hsym
    · obtain ⟨segsB, hq, hne, hchain, hdata⟩ :=
        (mem_copy_tree_iff w.tree _ item.ignore le (normSymlinks item) [] _ c
          hwf).mp hct
      have hss : segsB = segsA := (List.append_cancel_left hq.symm)
      subst hss
      have hnot := chainAllowed_rel_not_listed segsB item.ignore
        (normSymlinks item) [] hchain k hk1 hk2
      intro he
      rw [he] at hnot
      exact hnot hr
    · obtain ⟨x, _, hx⟩ := (mem_concatMap _ _ _).mp hsym
      exact absurd hx (copyBytes_not_mem_applySymlinkEntry _ _ _ _ _ _)
  · intro hmiss
    rw [htr]
    refine List.mem_append.mpr (Or.inr ?_)
    refine (mem_concatMap _ _ _).mpr ⟨r, hr, ?_⟩
    unfold applySymlinkEntry
    rw [if_pos (by simp [hmiss])]
    simp
  · intro hsrc hfail
    obtain ⟨s, t, hst⟩ := List.append_of_mem hr
    refine ⟨copy_tree w.tree
        (segsOf (item.name.getD
          (posixName (pyLstripCharset ['.', '/'] (pyStrip p0)))))
        item.ignore le (normSymlinks item) [] ++
      concatMap (applySymlinkEntry (pyLstripCharset ['.', '/'] (pyStrip p0))
        (segsOf (item.name.getD
          (posixName (pyLstripCharset ['.', '/'] (pyStrip p0))))) w) s,
      concatMap (applySymlinkEntry (pyLstripCharset ['.', '/'] (pyStrip p0))
        (segsOf (item.name.getD
          (posixName (pyLstripCharset ['.', '/'] (pyStrip p0))))) w) t, ?_⟩
    rw [htr]
    dsimp only []
    rw [hst, concatMap_append]
    have hone : concatMap (applySymlinkEntry (pyLstripCharset ['.', '/'] (pyStrip p0))
        (segsOf (item.name.getD
          (posixName (pyLstripCharset ['.', '/'] (pyStrip p0))))) w) (r :: t) =
        applySymlinkEntry (pyLstripCharset ['.', '/'] (pyStrip p0))
          (segsOf (item.name.getD
            (posixName (pyLstripCharset ['.', '/'] (pyStrip p0))))) w r ++
        concatMap (applySymlinkEntry (pyLstripCharset ['.', '/'] (pyStrip p0))
          (segsOf (item.name.getD
            (posixName (pyLstripCharset ['.', '/'] (pyStrip p0))))) w) t := rfl
    rw [hone]
    have happ : applySymlinkEntry (pyLstripCharset ['.', '/'] (pyStrip p0))
        (segsOf (item.name.getD
          (posixName (pyLstripCharset ['.', '/'] (pyStrip p0))))) w r =
        (if w.dstExists ((segsOf (item.name.getD
            (posixName (pyLstripCharset ['.', '/'] (pyStrip p0))))) ++ segsOf r) then
          [CAct.unlinkAct ((segsOf (item.name.getD
            (posixName (pyLstripCharset ['.', '/'] (pyStrip p0))))) ++ segsOf r)]
        else []) ++
          CAct.mkdirP (((segsOf (item.name.getD
            (posixName (pyLstripCharset ['.', '/'] (pyStrip p0))))) ++ segsOf r).dropLast) ::
            [CAct.symlinkTo ((segsOf (item.name.getD
              (posixName (pyLstripCharset ['.', '/'] (pyStrip p0))))) ++ segsOf r)
              (w.resolveSrc (pyJoin (pyLstripCharset ['.', '/'] (pyStrip p0)) r))] := by
      unfold applySymlinkEntry
      have hs1 : ¬((!w.srcItemExists
          (pyJoin (pyLstripCharset ['.', '/'] (pyStrip p0)) r)) = true) := by
        simp [hsrc]
      have hs2 : ¬(w.symlinkFails
          (segsOf (item.name.getD
            (posixName (pyLstripCharset ['.', '/'] (pyStrip p0)))) ++
            segsOf r) = true) := by
        simp [hfail]
      rw [if_neg hs1]
      dsimp only []
      rw [if_neg hs2]
    rw [happ]
    simp [List.append_assoc]

/-- C4 witness: the theorem applied to `symEntry` in `symWorld`, target
`ln1`: the run raises nothing and the trace ends with the removal (when
present) of the destination entry followed by a symlink to the absolute
resolved source. -/
theorem symlink_substitution_witness :
    (r"ln1".toList) ∈ normSymlinks symEntry
    ∧ (apply_subdir symEntry none symWorld).2 = none
    ∧ ∃ pre post, (apply_subdir symEntry none symWorld).1 =
        pre ++
          ((if symWorld.dstExists ([r"s".toList] ++ segsOf (r"ln1".toList)) then
              [CAct.unlinkAct ([r"s".toList] ++ segsOf (r"ln1".toList))]
            else []) ++
            CAct.mkdirP (([r"s".toList] ++ segsOf (r"ln1".toList)).dropLast) ::
              [CAct.symlinkTo ([r"s".toList] ++ segsOf (r"ln1".toList))
                (symWorld.resolveSrc (pyJoin (r"sd".toList) (r"ln1".toList)))]) ++
          post :=
  ⟨by decide,
    (symlink_substitution symEntry none symWorld (r"sd".toList) (r"sd".toList)
      [r"s".toList] (r"ln1".toList) rfl (by decide) (by decide) rfl rfl
      (by decide) (by decide)).1,
    (symlink_substitution symEntry none symWorld (r"sd".toList) (r"sd".toList)
      [r"s".toList] (r"ln1".toList) rfl (by decide) (by decide) rfl rfl
      (by decide) (by decide)).2.2.2 (by decide) (by decide)⟩

end RimeSync
